import Mathlib

/-!
Verification development for the phase-structure generator
(`generate_phase_structure.py`): a document-to-filesystem tool that parses a
markdown action plan into Phase/Task entities and materializes a directory
tree with rendered markdown files.

The embedding models Python strings as `String` (in proofs, its `List Char`
data), lines as `List Char`, the parser as an explicit state machine over the
split lines, exceptions as `Except String`, and the filesystem as a record of
a directory list plus a path-indexed file map.  Digits are modelled as ASCII
digits.
-/

namespace EasyMCP

/-- A single line of the input document (a Python `str` with no newline). -/
abbrev Line := List Char

/-- Whitespace characters stripped by Python `str.strip()` (ASCII model). -/
def pyIsSpace (c : Char) : Bool :=
  c = ' ' || c = '\t' || c = '\n' || c = '\r' || c = '\x0b' || c = '\x0c'

/-- Python `str.strip()`: remove leading and trailing whitespace. -/
def pyStrip (l : Line) : Line :=
  ((l.dropWhile pyIsSpace).reverse.dropWhile pyIsSpace).reverse

/-- Python `content.split('\n')`: split a character sequence at newline
characters, keeping empty parts (`""` splits to `[""]`). -/
def splitLines : List Char → List Line
  | [] => [[]]
  | c :: cs =>
    if c = '\n' then [] :: splitLines cs
    else
      match splitLines cs with
      | [] => [[c]]
      | l :: ls => (c :: l) :: ls

/-- Fuel-driven worker for `pyRemoveAll` (fuel makes it structurally
recursive, hence kernel-reducible). -/
def pyRemoveAllF (old : Line) : Nat → Line → Line
  | _, [] => []
  | 0, l => l
  | fuel + 1, c :: cs =>
    match old with
    | [] => c :: cs
    | o :: os =>
      if (o :: os).isPrefixOf (c :: cs) then pyRemoveAllF old fuel (cs.drop os.length)
      else c :: pyRemoveAllF old fuel cs

/-- Python `line.replace(old, '')` for a non-empty pattern `old`: remove all
non-overlapping occurrences, scanning left to right. -/
def pyRemoveAll (old l : Line) : Line := pyRemoveAllF old l.length l

/-- Value of an ASCII digit character. -/
def digitVal (c : Char) : Nat := c.toNat - '0'.toNat

/-- Python `int()` on a string of decimal digits. -/
def natOfDigits (l : Line) : Nat := l.foldl (fun a c => 10 * a + digitVal c) 0

def phaseHeadPre : Line := "## Phase ".data
def taskHeadPre : Line := "### Task ".data
def goalMarker : Line := "**Goal**:".data
def actionsMarker : Line := "**Actions**:".data
def criteriaMarker : Line := "**Success Criteria**:".data

/-- `re.match(r'^## Phase (\d+): (.+)$', line)`: the greedy digit group must
be the maximal digit run after the literal head, followed by `": "` and a
non-empty remainder. -/
def parsePhaseLine (l : Line) : Option (Nat × String) :=
  if phaseHeadPre.isPrefixOf l then
    let r := l.drop 9
    let ds := r.takeWhile Char.isDigit
    let rest := r.dropWhile Char.isDigit
    if ds.isEmpty then none
    else if [':', ' '].isPrefixOf rest then
      if (rest.drop 2).isEmpty then none
      else some (natOfDigits ds, String.mk (rest.drop 2))
    else none
  else none

def isDigitDot (c : Char) : Bool := c.isDigit || c = '.'

/-- `re.match(r'^### Task ([\d\.]+): (.+)$', line)`. -/
def parseTaskLine (l : Line) : Option (String × String) :=
  if taskHeadPre.isPrefixOf l then
    let r := l.drop 9
    let ds := r.takeWhile isDigitDot
    let rest := r.dropWhile isDigitDot
    if ds.isEmpty then none
    else if [':', ' '].isPrefixOf rest then
      if (rest.drop 2).isEmpty then none
      else some (String.mk ds, String.mk (rest.drop 2))
    else none
  else none

/-- The `Task` entity: one unit of work with its rendered fields. -/
structure Task where
  number : String
  title : String
  goal : String
  actions : List String
  success_criteria : String
deriving DecidableEq

def Task.get_full_title (t : Task) : String :=
  "Task " ++ t.number ++ ": " ++ t.title

/-- `Task.to_task_md`: the standalone detail render. -/
def Task.to_task_md (t : Task) : String :=
  let actions_text := String.intercalate "\n" (t.actions.map (fun a => "- " ++ a))
  "# " ++ t.get_full_title ++ "\n\n**Goal**: " ++ t.goal ++ "\n\n**Actions**:\n\n"
    ++ actions_text ++ "\n\n**Success Criteria**: " ++ t.success_criteria ++ "\n"

/-- `Task.to_checklist_section`: the checkbox render of one task. -/
def Task.to_checklist_section (t : Task) : String :=
  let actions_text := String.intercalate "\n" (t.actions.map (fun a => "- [ ] " ++ a))
  "### " ++ t.get_full_title ++ "\n\n" ++ actions_text
    ++ "\n- [ ] **Success Criteria**: " ++ t.success_criteria ++ "\n"

/-- The `Phase` entity: a numbered group of tasks. -/
structure Phase where
  number : Nat
  title : String
  description : String
  tasks : List Task
deriving DecidableEq

/-- Python `str.lower()` (ASCII model). -/
def pyLower (s : String) : String := String.mk (s.data.map Char.toLower)

/-- `Phase.to_checklist_md`: the phase checklist page. -/
def Phase.to_checklist_md (p : Phase) : String :=
  let tasks_text := String.intercalate "\n\n" (p.tasks.map Task.to_checklist_section)
  "# Task Checklist for Phase " ++ Nat.repr p.number ++ ": " ++ p.title
    ++ "\n\n## Overview\n\n"
    ++ (if p.description ≠ "" then p.description
        else "This phase focuses on " ++ pyLower p.title ++ ".")
    ++ "\n\n## Tasks\n\n" ++ tasks_text ++ "\n"

/-- The `current_task` accumulator: a Python dict with up to five keys, each
`Option` field modelling presence of the corresponding key. -/
structure TaskAcc where
  num : Option String
  title : Option String
  goal : Option String
  acts : Option (List String)
  crit : Option String
deriving DecidableEq

def TaskAcc.empty : TaskAcc := ⟨none, none, none, none, none⟩

/-- Truthiness of the `current_task` dict (at least one key present). -/
def TaskAcc.nonempty (a : TaskAcc) : Bool :=
  a.num.isSome || a.title.isSome || a.goal.isSome || a.acts.isSome || a.crit.isSome

/-- `Task(...)` built from the accumulator with `.get` defaults. -/
def TaskAcc.emit (a : TaskAcc) (n t : String) : Task :=
  ⟨n, t, a.goal.getD "", a.acts.getD [], a.crit.getD ""⟩

/-- The `current_section` variable. -/
inductive Sect where
  | nil | goal | actions | crit
deriving DecidableEq

/-- Parser state: finished phases, the current phase, the pending task dict,
the current section, and the `current_list_items` accumulator. -/
structure St where
  done : List Phase
  cur : Option Phase
  ct : TaskAcc
  sec : Sect
  items : List String
deriving DecidableEq

/-- The task-flush: `Task(number=current_task['number'], ...)` appended to
`current_phase`; a missing `number`/`title` key raises `KeyError`.  Call
sites guard with `current_task and current_phase`. -/
def appendPending (st : St) : Except String St :=
  match st.cur with
  | none => .ok st
  | some ph =>
    match st.ct.num with
    | none => .error "KeyError: 'number'"
    | some n =>
      match st.ct.title with
      | none => .error "KeyError: 'title'"
      | some t =>
        .ok { st with cur := some { ph with tasks := ph.tasks ++ [st.ct.emit n t] } }

/-- The three trailing `if current_section == ...` content branches. -/
def contentStep (st : St) (l : Line) : St :=
  match st.sec with
  | .nil => st
  | .goal =>
    if (pyStrip l).isEmpty then st
    else if ['#'].isPrefixOf l then st
    else
      match st.ct.goal with
      | none => { st with ct := { st.ct with goal := some (String.mk (pyStrip l)) } }
      | some g =>
        { st with ct := { st.ct with goal := some (g ++ " " ++ String.mk (pyStrip l)) } }
  | .actions =>
    if ['-', ' '].isPrefixOf (pyStrip l) then
      let its := st.items ++ [String.mk ((pyStrip l).drop 2)]
      { st with items := its, ct := { st.ct with acts := some its } }
    else st
  | .crit =>
    if (pyStrip l).isEmpty then st
    else if ['#'].isPrefixOf l then st
    else
      match st.ct.crit with
      | none => { st with ct := { st.ct with crit := some (String.mk (pyStrip l)) } }
      | some g =>
        { st with ct := { st.ct with crit := some (g ++ " " ++ String.mk (pyStrip l)) } }

/-- One iteration of the parse loop, in the source's branch order. -/
def procLine (st : St) (l : Line) : Except String St :=
  match parsePhaseLine l with
  | some (n, ti) =>
    match (if st.ct.nonempty && st.cur.isSome then
             (appendPending st).map (fun st1 => { st1 with ct := TaskAcc.empty, items := [] })
           else .ok st) with
    | .error e => .error e
    | .ok st1 =>
      .ok { st1 with done := st1.done ++ st1.cur.toList,
                     cur := some ⟨n, ti, "", []⟩, sec := .nil }
  | none =>
    match parseTaskLine l with
    | some (ns, ti) =>
      match (if st.ct.nonempty && st.cur.isSome then appendPending st else .ok st) with
      | .error e => .error e
      | .ok st1 =>
        .ok { st1 with ct := ⟨some ns, some ti, none, some [], none⟩,
                       items := [], sec := .nil }
    | none =>
      if goalMarker.isPrefixOf l then
        let g := pyStrip (pyRemoveAll goalMarker l)
        .ok { st with sec := .goal,
                      ct := if g.isEmpty then st.ct
                            else { st.ct with goal := some (String.mk g) } }
      else if actionsMarker.isPrefixOf l then
        .ok { st with sec := .actions, items := [] }
      else if criteriaMarker.isPrefixOf l then
        let g := pyStrip (pyRemoveAll criteriaMarker l)
        .ok { st with sec := .crit,
                      ct := if g.isEmpty then st.ct
                            else { st.ct with crit := some (String.mk g) } }
      else .ok (contentStep st l)

def parseLoop : St → List Line → Except String St
  | st, [] => .ok st
  | st, l :: ls =>
    match procLine st l with
    | .error e => .error e
    | .ok st1 => parseLoop st1 ls

/-- The final flush after the loop, and extraction of the phase list. -/
def finishParse (st : St) : Except String (List Phase) :=
  match (if st.ct.nonempty && st.cur.isSome then appendPending st else .ok st) with
  | .error e => .error e
  | .ok st1 => .ok (st1.done ++ st1.cur.toList)

def initSt : St := ⟨[], none, TaskAcc.empty, .nil, []⟩

/-- `parse_action_plan` on the file's text content. -/
def parse_action_plan (text : String) : Except String (List Phase) :=
  match parseLoop initSt (splitLines text.data) with
  | .error e => .error e
  | .ok st => finishParse st

/-- A filesystem path, as a list of components. -/
abbrev DirPath := List String

/-- Filesystem model: the set of existing directories (as a duplicate-free
list, in creation order) and the file contents at each path. -/
structure FS where
  dirs : List DirPath
  files : DirPath → Option String

def emptyFS : FS := ⟨[], fun _ => none⟩

/-- A filesystem call made by the materializer. -/
inductive FOp where
  | mkdir (p : DirPath)
  | write (p : DirPath) (content : String)

/-- `Path.mkdir(exist_ok=True)` and `open(..., 'w')` + `write` (whole-file
truncating overwrite). -/
def applyOp (fs : FS) : FOp → FS
  | .mkdir p => if p ∈ fs.dirs then fs else { fs with dirs := fs.dirs ++ [p] }
  | .write p c => { fs with files := fun q => if q = p then some c else fs.files q }

def applyOps (ops : List FOp) (fs : FS) : FS := ops.foldl applyOp fs

def phaseDirName (n : Nat) : String := "Phase" ++ Nat.repr n
def checklistName (n : Nat) : String := "TaskCheckList" ++ Nat.repr n ++ ".md"
def taskDirName (i : Nat) : String := "Task" ++ Nat.repr i
def taskFileName (i : Nat) : String := "Task" ++ Nat.repr i ++ ".md"
def noteFileName (i : Nat) : String := "TaskCompleteNote" ++ Nat.repr i ++ ".md"
def reviewFileName (i : Nat) : String := "TaskReview" ++ Nat.repr i ++ ".md"

/-- The filesystem calls made for one enumerated task `(i, task)` (with the
1-based positional index `i` from `enumerate(phase.tasks, 1)`). -/
def taskOps (pd : DirPath) (it : Nat × Task) : List FOp :=
  [ .mkdir (pd ++ [taskDirName it.1]),
    .write (pd ++ [taskDirName it.1, taskFileName it.1]) it.2.to_task_md,
    .write (pd ++ [taskDirName it.1, noteFileName it.1]) "",
    .write (pd ++ [taskDirName it.1, reviewFileName it.1]) "" ]

/-- The filesystem calls made for one phase. -/
def phaseOps (base : DirPath) (p : Phase) : List FOp :=
  .mkdir (base ++ [phaseDirName p.number])
    :: .write (base ++ [phaseDirName p.number, checklistName p.number]) p.to_checklist_md
    :: (List.enumFrom 1 p.tasks).flatMap (taskOps (base ++ [phaseDirName p.number]))

/-- The full sequence of filesystem calls of `create_phase_structure`, in
program order. -/
def createOps (phases : List Phase) (base : DirPath) : List FOp :=
  .mkdir base :: phases.flatMap (phaseOps base)

/-- `create_phase_structure`: apply the materializer's calls in order. -/
def create_phase_structure (phases : List Phase) (base : DirPath) (fs : FS) : FS :=
  applyOps (createOps phases base) fs

/-- Parser followed by materializer (the generator run on given text). -/
def runGenerator (text : String) (base : DirPath) (fs : FS) : Except String FS :=
  match parse_action_plan text with
  | .error e => .error e
  | .ok ps => .ok (create_phase_structure ps base fs)

def actionPlanBase : DirPath := ["/workspace/ActionPlan"]

/-- The driver `main`.  `input = none` models a missing input file: an error
message is printed and the run returns with no parsing and no filesystem
effect.  Progress messages on the success path are abbreviated to the
summary lines. -/
def pyMain (input : Option String) (fs : FS) : Except String (FS × List String) :=
  match input with
  | none => .ok (fs, ["Error: /workspace/ActionPlan.md not found!"])
  | some text =>
    match parse_action_plan text with
    | .error e => .error e
    | .ok ps =>
      .ok (create_phase_structure ps actionPlanBase fs,
           ["Parsing ActionPlan.md...",
            "Found " ++ Nat.repr ps.length ++ " phases",
            "Generating folder structure...",
            "Phase structure generation complete!"])

/-! ### Derived notions used to state the claims -/

/-- The last content written to path `q` by a call sequence, if any. -/
def lastWrite : List FOp → DirPath → Option String
  | [], _ => none
  | op :: ops, q =>
    match lastWrite ops q with
    | some v => some v
    | none =>
      match op with
      | .write p c => if q = p then some c else none
      | .mkdir _ => none

/-- The directories a call sequence creates. -/
def mkdirTargets (ops : List FOp) : List DirPath :=
  ops.filterMap (fun op => match op with | .mkdir p => some p | .write _ _ => none)

/-- The paths a call sequence writes. -/
def writeTargets (ops : List FOp) : List DirPath :=
  ops.filterMap (fun op => match op with | .write p _ => some p | .mkdir _ => none)

/-- All paths the materializer touches for a given phase list and base. -/
def touchedPaths (phases : List Phase) (base : DirPath) : List DirPath :=
  mkdirTargets (createOps phases base) ++ writeTargets (createOps phases base)

/-- The lines of the document text. -/
def docLines (text : String) : List Line := splitLines text.data

def isPhaseLineB (l : Line) : Bool := (parsePhaseLine l).isSome

def isTaskLineB (l : Line) : Bool := (parseTaskLine l).isSome

/-- A field-marker line (`**Goal**:` / `**Actions**:` / `**Success
Criteria**:` at the start of the line). -/
def isMarkerB (l : Line) : Bool :=
  goalMarker.isPrefixOf l || actionsMarker.isPrefixOf l || criteriaMarker.isPrefixOf l

/-- Number of Task heading lines before the next Phase heading line. -/
def tasksUntilPhase (ls : List Line) : Nat :=
  (ls.takeWhile (fun l => !isPhaseLineB l)).countP isTaskLineB

/-- Per Phase-heading line, in document order: the parsed phase number and
the count of Task heading lines between it and the next Phase heading. -/
def specPhaseCounts : List Line → List (Nat × Nat)
  | [] => []
  | l :: ls =>
    match parsePhaseLine l with
    | some (n, _) => (n, tasksUntilPhase ls) :: specPhaseCounts ls
    | none => specPhaseCounts ls

/-- Well-formed document: no Task heading line before the first Phase
heading line. -/
def wellFormedB (ls : List Line) : Bool :=
  (ls.takeWhile (fun l => !isPhaseLineB l)).all (fun l => !isTaskLineB l)

/-- Field-marker lines only occur while a task heading is pending (the
Boolean is true after a Task heading, false initially and after a Phase
heading). -/
def markerSafeB : Bool → List Line → Bool
  | _, [] => true
  | b, l :: ls =>
    if isPhaseLineB l then markerSafeB false ls
    else if isTaskLineB l then markerSafeB true ls
    else if isMarkerB l then b && markerSafeB true ls
    else markerSafeB b ls

/-- Does `pat` occur as a contiguous subsequence of `l`? -/
def containsSeq (pat : Line) : Line → Bool
  | [] => pat.isEmpty
  | c :: cs => pat.isPrefixOf (c :: cs) || containsSeq pat cs

/-- Directories of the form `base/Phase*` (a phase directory). -/
def isPhaseDirB (base : DirPath) (q : DirPath) : Bool :=
  base.isPrefixOf q && q.length = base.length + 1 &&
    (match q.drop base.length with
     | [s] => "Phase".data.isPrefixOf s.data
     | _ => false)

/-- The number of phase directories under `base`. -/
def countPhaseDirs (fs : FS) (base : DirPath) : Nat :=
  fs.dirs.countP (isPhaseDirB base)

/-- Directories directly under `base/Phase<n>` (the task directories). -/
def isTaskDirB (base : DirPath) (n : Nat) (q : DirPath) : Bool :=
  (base ++ [phaseDirName n]).isPrefixOf q && q.length = base.length + 2

/-- The number of directories directly under `base/Phase<n>`. -/
def taskDirCount (fs : FS) (base : DirPath) (n : Nat) : Nat :=
  fs.dirs.countP (isTaskDirB base n)

/-- State invariant used in totality/count proofs: whenever the pending-task
dict is non-empty it has the `number` and `title` keys, and while a section
is open it has them as well. -/
def GoodSt (st : St) : Prop :=
  (st.ct.nonempty = true → st.ct.num.isSome = true ∧ st.ct.title.isSome = true)
    ∧ (st.sec ≠ Sect.nil → st.ct.num.isSome = true ∧ st.ct.title.isSome = true)

/-- The task-pending flag of a state, as read by `markerSafeB`. -/
def pendingFlag (st : St) : Bool := st.ct.num.isSome && st.ct.title.isSome

/-- The phase number plus task count of each produced phase. -/
def phaseCountsOf (ps : List Phase) : List (Nat × Nat) :=
  ps.map (fun p => (p.number, p.tasks.length))

/-- 1 when the pending task dict would be flushed into the current phase
(the `current_task and current_phase` guard), else 0. -/
def pendN (st : St) : Nat :=
  if st.ct.nonempty && st.cur.isSome then 1 else 0

/-- The per-phase counts the final flush would produce from a state: the
finished phases plus the current phase with its pending task counted in. -/
def finishCounts (st : St) : List (Nat × Nat) :=
  phaseCountsOf st.done ++
    (match st.cur with
     | none => []
     | some ph => [(ph.number, ph.tasks.length + pendN st)])

/-- Join lines with a newline between them (left inverse of `splitLines` on
newline-free lines). -/
def joinLines : List Line → List Char
  | [] => []
  | [l] => l
  | l :: ls => l ++ '\n' :: joinLines ls

/-! ### Decimal rendering toolkit

`Nat.repr` (used for `Phase<N>`/`Task<i>` names and for parsing back phase
numbers) round-trips through `natOfDigits`, hence is injective. -/

lemma toDigitsCore_succ (f n : Nat) (ds : List Char) :
    Nat.toDigitsCore 10 (f + 1) n ds =
      if n / 10 = 0 then Nat.digitChar (n % 10) :: ds
      else Nat.toDigitsCore 10 f (n / 10) (Nat.digitChar (n % 10) :: ds) := rfl

lemma toDigitsCore_append (fuel : Nat) :
    ∀ (n : Nat) (ds : List Char),
      Nat.toDigitsCore 10 fuel n ds = Nat.toDigitsCore 10 fuel n [] ++ ds := by
  induction fuel with
  | zero => intro n ds; simp [Nat.toDigitsCore]
  | succ f ih =>
    intro n ds
    simp only [Nat.toDigitsCore]
    by_cases h : n / 10 = 0
    · simp [h]
    · simp only [h, if_false]
      rw [ih (n / 10) (Nat.digitChar (n % 10) :: ds), ih (n / 10) [Nat.digitChar (n % 10)]]
      simp

lemma digitVal_digitChar : ∀ d : Nat, d < 10 → digitVal (Nat.digitChar d) = d := by decide

lemma isDigit_digitChar : ∀ d : Nat, d < 10 → (Nat.digitChar d).isDigit = true := by decide

lemma natOfDigits_concat (xs : List Char) (c : Char) :
    natOfDigits (xs ++ [c]) = 10 * natOfDigits xs + digitVal c := by
  simp [natOfDigits, List.foldl_append]

lemma toDigitsCore_val (fuel : Nat) :
    ∀ n : Nat, n ≤ fuel → natOfDigits (Nat.toDigitsCore 10 (fuel + 1) n []) = n := by
  induction fuel with
  | zero =>
    intro n hn
    interval_cases n
    decide
  | succ f ih =>
    intro n hn
    rw [toDigitsCore_succ]
    by_cases h : n / 10 = 0
    · have hnlt : n < 10 := by omega
      simp only [h, if_true]
      have hone : natOfDigits [Nat.digitChar (n % 10)] = digitVal (Nat.digitChar (n % 10)) := by
        simp [natOfDigits]
      rw [hone, digitVal_digitChar (n % 10) (Nat.mod_lt n (by omega))]
      omega
    · simp only [h, if_false]
      rw [toDigitsCore_append, natOfDigits_concat]
      have hdiv : n / 10 ≤ f := by
        have h2 : n / 10 < n := Nat.div_lt_self (by omega) (by omega)
        omega
      rw [ih (n / 10) hdiv, digitVal_digitChar (n % 10) (Nat.mod_lt n (by omega))]
      omega

lemma natOfDigits_repr (n : Nat) : natOfDigits (Nat.repr n).data = n := by
  have h := toDigitsCore_val n n le_rfl
  simpa [Nat.repr, Nat.toDigits, List.asString] using h

lemma repr_injective {m n : Nat} (h : Nat.repr m = Nat.repr n) : m = n := by
  have : natOfDigits (Nat.repr m).data = natOfDigits (Nat.repr n).data := by rw [h]
  rwa [natOfDigits_repr, natOfDigits_repr] at this

lemma toDigitsCore_digits (fuel : Nat) :
    ∀ (n : Nat) (ds : List Char), (∀ c ∈ ds, c.isDigit = true) →
      ∀ c ∈ Nat.toDigitsCore 10 fuel n ds, c.isDigit = true := by
  induction fuel with
  | zero => intro n ds hds; simpa [Nat.toDigitsCore] using hds
  | succ f ih =>
    intro n ds hds
    simp only [Nat.toDigitsCore]
    have hd : (Nat.digitChar (n % 10)).isDigit = true :=
      isDigit_digitChar (n % 10) (Nat.mod_lt n (by omega) |>.trans_le (by omega) |>.le.lt_of_ne
        (by omega) |>.trans_le le_rfl)
    by_cases h : n / 10 = 0
    · simp only [h, if_true]
      intro c hc
      rcases List.mem_cons.mp hc with rfl | hc
      · exact hd
      · exact hds c hc
    · simp only [h, if_false]
      refine ih (n / 10) _ ?_
      intro c hc
      rcases List.mem_cons.mp hc with rfl | hc
      · exact hd
      · exact hds c hc

lemma repr_all_digits (n : Nat) : ∀ c ∈ (Nat.repr n).data, c.isDigit = true := by
  have h := toDigitsCore_digits (n + 1) n [] (by simp)
  simpa [Nat.repr, Nat.toDigits, List.asString] using h

lemma string_data_append (a b : String) : (a ++ b).data = a.data ++ b.data := rfl

lemma string_append_left_cancel {p a b : String} (h : p ++ a = p ++ b) : a = b := by
  have h2 : a.data = b.data := by
    have h3 : (p ++ a).data = (p ++ b).data := by rw [h]
    rw [string_data_append, string_data_append] at h3
    exact List.append_cancel_left h3
  cases a
  cases b
  exact congrArg String.mk h2

lemma phaseDirName_inj {m n : Nat} (h : phaseDirName m = phaseDirName n) : m = n :=
  repr_injective (string_append_left_cancel (p := "Phase") h)

lemma taskDirName_inj {m n : Nat} (h : taskDirName m = taskDirName n) : m = n :=
  repr_injective (string_append_left_cancel (p := "Task") h)

/-! ### Filesystem lemmas -/

lemma applyOps_cons (op : FOp) (ops : List FOp) (fs : FS) :
    applyOps (op :: ops) fs = applyOps ops (applyOp fs op) := rfl

lemma files_applyOp_mkdir (fs : FS) (p : DirPath) :
    (applyOp fs (.mkdir p)).files = fs.files := by
  simp only [applyOp]
  split <;> rfl

lemma dirs_applyOp_write (fs : FS) (p : DirPath) (c : String) :
    (applyOp fs (.write p c)).dirs = fs.dirs := rfl

lemma files_applyOps (ops : List FOp) : ∀ (fs : FS) (q : DirPath),
    (applyOps ops fs).files q =
      match lastWrite ops q with
      | some v => some v
      | none => fs.files q := by
  induction ops with
  | nil => intro fs q; simp [applyOps, lastWrite]
  | cons op ops ih =>
    intro fs q
    rw [applyOps_cons, ih]
    cases hl : lastWrite ops q with
    | some v => simp [lastWrite, hl]
    | none =>
      cases op with
      | mkdir p => simp [lastWrite, hl, files_applyOp_mkdir]
      | write p c =>
        simp only [lastWrite, hl, applyOp]
        by_cases hq : q = p <;> simp [hq]

lemma mem_dirs_applyOps (ops : List FOp) : ∀ (fs : FS) (q : DirPath),
    q ∈ (applyOps ops fs).dirs ↔ q ∈ fs.dirs ∨ q ∈ mkdirTargets ops := by
  induction ops with
  | nil => intro fs q; simp [applyOps, mkdirTargets]
  | cons op ops ih =>
    intro fs q
    rw [applyOps_cons, ih]
    cases op with
    | mkdir p =>
      simp only [applyOp, mkdirTargets, List.filterMap_cons]
      split
      · rename_i hp
        simp only [List.mem_cons]
        constructor
        · rintro (h | h)
          · exact Or.inl h
          · exact Or.inr (Or.inr h)
        · rintro (h | rfl | h)
          · exact Or.inl h
          · exact Or.inl hp
          · exact Or.inr h
      · simp only [List.mem_append, List.mem_singleton, List.mem_cons]
        tauto
    | write p c =>
      simp [mkdirTargets, List.filterMap_cons, dirs_applyOp_write]

lemma dirs_applyOps_prefix (ops : List FOp) : ∀ fs : FS,
    fs.dirs.IsPrefix (applyOps ops fs).dirs := by
  induction ops with
  | nil => intro fs; exact List.prefix_rfl
  | cons op ops ih =>
    intro fs
    rw [applyOps_cons]
    refine List.IsPrefix.trans ?_ (ih (applyOp fs op))
    cases op with
    | mkdir p =>
      simp only [applyOp]
      split
      · exact List.prefix_rfl
      · exact ⟨[p], rfl⟩
    | write p c => exact List.prefix_rfl

lemma dirs_applyOps_of_present (ops : List FOp) : ∀ fs : FS,
    (∀ q ∈ mkdirTargets ops, q ∈ fs.dirs) → (applyOps ops fs).dirs = fs.dirs := by
  induction ops with
  | nil => intro fs _; rfl
  | cons op ops ih =>
    intro fs h
    rw [applyOps_cons]
    cases op with
    | mkdir p =>
      have hp : p ∈ fs.dirs := h p (by simp [mkdirTargets, List.filterMap_cons])
      have : applyOp fs (.mkdir p) = fs := by simp [applyOp, hp]
      rw [this]
      refine ih fs ?_
      intro q hq
      exact h q (by simp [mkdirTargets, List.filterMap_cons]; exact Or.inr (by
        simpa [mkdirTargets] using hq))
    | write p c =>
      have hd : (applyOp fs (.write p c)).dirs = fs.dirs := rfl
      rw [show (applyOps ops (applyOp fs (FOp.write p c))).dirs
            = (applyOp fs (FOp.write p c)).dirs from ?_, hd]
      refine ih _ ?_
      intro q hq
      rw [hd]
      exact h q (by simpa [mkdirTargets, List.filterMap_cons] using hq)

lemma dirs_applyOps_nodup (ops : List FOp) : ∀ fs : FS,
    (mkdirTargets ops).Nodup → (∀ q ∈ mkdirTargets ops, q ∉ fs.dirs) →
    (applyOps ops fs).dirs = fs.dirs ++ mkdirTargets ops := by
  induction ops with
  | nil => intro fs _ _; simp [applyOps, mkdirTargets]
  | cons op ops ih =>
    intro fs hnd hni
    rw [applyOps_cons]
    cases op with
    | mkdir p =>
      have hmem : p ∈ mkdirTargets (.mkdir p :: ops) := by
        simp [mkdirTargets, List.filterMap_cons]
      have hpf : p ∉ fs.dirs := hni p hmem
      have hstep : applyOp fs (.mkdir p) = { fs with dirs := fs.dirs ++ [p] } := by
        simp [applyOp, hpf]
      rw [hstep]
      have htail : mkdirTargets (FOp.mkdir p :: ops) = p :: mkdirTargets ops := by
        simp [mkdirTargets, List.filterMap_cons]
      rw [htail] at hnd hni ⊢
      have hnd' := hnd.of_cons
      have hpn : p ∉ mkdirTargets ops := by
        intro hc
        exact (List.nodup_cons.mp hnd).1 hc
      rw [ih _ hnd' ?_]
      · simp
      · intro q hq
        simp only [List.mem_append, List.mem_singleton]
        push_neg
        refine ⟨hni q (List.mem_cons_of_mem _ hq), ?_⟩
        intro hqp
        exact hpn (hqp ▸ hq)
    | write p c =>
      have htail : mkdirTargets (FOp.write p c :: ops) = mkdirTargets ops := by
        simp [mkdirTargets, List.filterMap_cons]
      rw [htail] at hnd hni
      have : (applyOp fs (FOp.write p c)).dirs = fs.dirs := rfl
      rw [ih _ hnd (by intro q hq; rw [this]; exact hni q hq), this, htail]

lemma FS.eq_of_parts {a b : FS} (hd : a.dirs = b.dirs) (hf : ∀ q, a.files q = b.files q) :
    a = b := by
  cases a with
  | mk da fa =>
    cases b with
    | mk db fb =>
      simp only [FS.mk.injEq]
      exact ⟨hd, funext hf⟩

lemma writeTargets_cons (op : FOp) (ops : List FOp) :
    writeTargets (op :: ops) =
      (match op with | .write p _ => [p] | .mkdir _ => []) ++ writeTargets ops := by
  cases op <;> simp [writeTargets, List.filterMap_cons]

lemma mkdirTargets_cons (op : FOp) (ops : List FOp) :
    mkdirTargets (op :: ops) =
      (match op with | .write _ _ => [] | .mkdir p => [p]) ++ mkdirTargets ops := by
  cases op <;> simp [mkdirTargets, List.filterMap_cons]

lemma writeTargets_append (a b : List FOp) :
    writeTargets (a ++ b) = writeTargets a ++ writeTargets b := by
  simp [writeTargets, List.filterMap_append]

lemma mkdirTargets_append (a b : List FOp) :
    mkdirTargets (a ++ b) = mkdirTargets a ++ mkdirTargets b := by
  simp [mkdirTargets, List.filterMap_append]

lemma writeTargets_flatMap {α : Type} (l : List α) (f : α → List FOp) :
    writeTargets (l.flatMap f) = l.flatMap (fun x => writeTargets (f x)) := by
  induction l with
  | nil => rfl
  | cons x l ih => simp [List.flatMap_cons, writeTargets_append, ih]

lemma mkdirTargets_flatMap {α : Type} (l : List α) (f : α → List FOp) :
    mkdirTargets (l.flatMap f) = l.flatMap (fun x => mkdirTargets (f x)) := by
  induction l with
  | nil => rfl
  | cons x l ih => simp [List.flatMap_cons, mkdirTargets_append, ih]

lemma lastWrite_eq_none (q : DirPath) :
    ∀ ops : List FOp, q ∉ writeTargets ops → lastWrite ops q = none := by
  intro ops
  induction ops with
  | nil => intro _; rfl
  | cons op ops ih =>
    intro h
    rw [writeTargets_cons] at h
    simp only [List.mem_append] at h
    push_neg at h
    obtain ⟨h0, h1⟩ := h
    have hn := ih h1
    cases op with
    | mkdir p => simp [lastWrite, hn]
    | write p c =>
      have hqp : q ≠ p := by simpa using h0
      simp [lastWrite, hn, hqp]

lemma lastWrite_append (a b : List FOp) (q : DirPath) :
    lastWrite (a ++ b) q =
      match lastWrite b q with
      | some v => some v
      | none => lastWrite a q := by
  induction a with
  | nil => cases hb : lastWrite b q <;> simp [lastWrite, hb]
  | cons op a ih =>
    rw [List.cons_append]
    cases hb : lastWrite b q with
    | some v => simp only [lastWrite, ih, hb]
    | none => simp only [lastWrite, ih, hb]

lemma applyOps_idem (ops : List FOp) (fs : FS) :
    applyOps ops (applyOps ops fs) = applyOps ops fs := by
  refine FS.eq_of_parts ?_ ?_
  · refine dirs_applyOps_of_present ops _ ?_
    intro q hq
    exact (mem_dirs_applyOps ops fs q).mpr (Or.inr hq)
  · intro q
    rw [files_applyOps, files_applyOps]
    cases hl : lastWrite ops q with
    | some v => simp
    | none => simp [files_applyOps, hl]

/-! ### Claim C9: missing input file -/

/-- C9: if the input file does not exist, the driver reports the error
message and terminates with the filesystem unchanged — nothing is parsed or
created. -/
theorem main_missing_input_no_output (fs : FS) :
    pyMain none fs = .ok (fs, ["Error: /workspace/ActionPlan.md not found!"]) := rfl

/-! ### Claim C6: idempotent regeneration -/

/-- C6: regeneration is idempotent — running the generator a second time on
the same input text and output directory leaves the filesystem (in
particular every `TaskCheckList<N>.md` and `Task<i>.md`) byte-identical. -/
theorem generator_idempotent (text : String) (base : DirPath) (fs fs1 : FS)
    (h : runGenerator text base fs = .ok fs1) :
    runGenerator text base fs1 = .ok fs1 := by
  unfold runGenerator at h ⊢
  cases hp : parse_action_plan text with
  | error e => rw [hp] at h; exact absurd h (by simp)
  | ok ps =>
    rw [hp] at h
    simp only [Except.ok.injEq] at h
    subst h
    simp only [Except.ok.injEq]
    exact applyOps_idem _ _

theorem generator_idempotent_witness :
    runGenerator "## Phase 1: A" ["b"]
        (create_phase_structure [⟨1, "A", "", []⟩] ["b"] emptyFS)
      = .ok (create_phase_structure [⟨1, "A", "", []⟩] ["b"] emptyFS) :=
  generator_idempotent "## Phase 1: A" ["b"] emptyFS
    (create_phase_structure [⟨1, "A", "", []⟩] ["b"] emptyFS) rfl

/-! ### Claim C10: the materializer touches only the enumerated paths -/

/-- C10: `create_phase_structure` creates or overwrites only the enumerated
paths (base dir, `Phase<N>` dirs and their checklist files, `Task<i>` dirs
and their three files): any other path keeps its file contents and its
directory status, pre-existing directories survive (the directory list only
grows), and no file is ever deleted. -/
theorem materializer_frame (phases : List Phase) (base : DirPath) (fs : FS) :
    (∀ q : DirPath, q ∉ touchedPaths phases base →
        (create_phase_structure phases base fs).files q = fs.files q ∧
          (q ∈ (create_phase_structure phases base fs).dirs ↔ q ∈ fs.dirs))
      ∧ fs.dirs.IsPrefix (create_phase_structure phases base fs).dirs
      ∧ (∀ q c, fs.files q = some c →
          ((create_phase_structure phases base fs).files q).isSome = true) := by
  have hcreate : create_phase_structure phases base fs
      = applyOps (createOps phases base) fs := rfl
  refine ⟨?_, ?_, ?_⟩
  · intro q hq
    have hw : q ∉ writeTargets (createOps phases base) := fun hc =>
      hq (List.mem_append.mpr (Or.inr hc))
    have hm : q ∉ mkdirTargets (createOps phases base) := fun hc =>
      hq (List.mem_append.mpr (Or.inl hc))
    constructor
    · rw [hcreate, files_applyOps, lastWrite_eq_none q _ hw]
    · rw [hcreate, mem_dirs_applyOps]
      constructor
      · rintro (h | h)
        · exact h
        · exact absurd h hm
      · exact Or.inl
  · rw [hcreate]
    exact dirs_applyOps_prefix _ _
  · intro q c hc
    rw [hcreate, files_applyOps]
    cases lastWrite (createOps phases base) q <;> simp [hc]

theorem materializer_frame_witness :
    (create_phase_structure [] ["b"] emptyFS).files ["z"] = emptyFS.files ["z"]
      ∧ (["z"] ∈ (create_phase_structure [] ["b"] emptyFS).dirs ↔ ["z"] ∈ emptyFS.dirs) :=
  (materializer_frame [] ["b"] emptyFS).1 ["z"] (by decide)

/-! ### Path algebra for the materializer layout -/

lemma string_ne_of_data_length {a b : String} (h : a.data.length ≠ b.data.length) :
    a ≠ b := fun he => h (by rw [he])

lemma fixed_affix_ne (p1 p2 : String) (i : Nat) (h : p1.data.length ≠ p2.data.length) :
    p1 ++ Nat.repr i ++ ".md" ≠ p2 ++ Nat.repr i ++ ".md" := by
  apply string_ne_of_data_length
  rw [string_data_append, string_data_append, string_data_append, string_data_append]
  simp only [List.length_append]
  omega

lemma taskFileName_ne_noteFileName (i : Nat) : taskFileName i ≠ noteFileName i :=
  fixed_affix_ne "Task" "TaskCompleteNote" i (by decide)

lemma taskFileName_ne_reviewFileName (i : Nat) : taskFileName i ≠ reviewFileName i :=
  fixed_affix_ne "Task" "TaskReview" i (by decide)

lemma noteFileName_ne_reviewFileName (i : Nat) : noteFileName i ≠ reviewFileName i :=
  fixed_affix_ne "TaskCompleteNote" "TaskReview" i (by decide)

lemma path2_inj {pd : DirPath} {a b c d : String}
    (h : pd ++ [a, b] = pd ++ [c, d]) : a = c ∧ b = d := by
  have h2 := List.append_cancel_left h
  simpa using h2

lemma append_one_inj {base : DirPath} {x y : String} {r s : List String}
    (h : (base ++ [x]) ++ r = (base ++ [y]) ++ s) : x = y ∧ r = s := by
  have hlen : (base ++ [x]).length = (base ++ [y]).length := by simp
  obtain ⟨h1, h2⟩ := List.append_inj h hlen
  refine ⟨?_, h2⟩
  have h3 := List.append_cancel_left h1
  simpa using h3

lemma writeTargets_taskOps (pd : DirPath) (it : Nat × Task) :
    writeTargets (taskOps pd it) =
      [pd ++ [taskDirName it.1, taskFileName it.1],
       pd ++ [taskDirName it.1, noteFileName it.1],
       pd ++ [taskDirName it.1, reviewFileName it.1]] := by
  simp [taskOps, writeTargets, List.filterMap_cons]

lemma mkdirTargets_taskOps (pd : DirPath) (it : Nat × Task) :
    mkdirTargets (taskOps pd it) = [pd ++ [taskDirName it.1]] := by
  simp [taskOps, mkdirTargets, List.filterMap_cons]

lemma writeTargets_phaseOps (base : DirPath) (p : Phase) :
    writeTargets (phaseOps base p) =
      (base ++ [phaseDirName p.number, checklistName p.number])
        :: (List.enumFrom 1 p.tasks).flatMap
            (fun it => writeTargets (taskOps (base ++ [phaseDirName p.number]) it)) := by
  show writeTargets (.mkdir _ :: .write _ _ :: _) = _
  rw [writeTargets_cons, writeTargets_cons, writeTargets_flatMap]
  rfl

lemma mkdirTargets_phaseOps (base : DirPath) (p : Phase) :
    mkdirTargets (phaseOps base p) =
      (base ++ [phaseDirName p.number])
        :: (List.enumFrom 1 p.tasks).flatMap
            (fun it => mkdirTargets (taskOps (base ++ [phaseDirName p.number]) it)) := by
  show mkdirTargets (.mkdir _ :: .write _ _ :: _) = _
  rw [mkdirTargets_cons, mkdirTargets_cons, mkdirTargets_flatMap]
  rfl

lemma writeTargets_phaseOps_shape (base : DirPath) (p : Phase) :
    ∀ path ∈ writeTargets (phaseOps base p),
      ∃ r, path = (base ++ [phaseDirName p.number]) ++ r := by
  intro path hp
  rw [writeTargets_phaseOps] at hp
  rcases List.mem_cons.mp hp with rfl | hp
  · exact ⟨[checklistName p.number], by simp⟩
  · rw [List.mem_flatMap] at hp
    obtain ⟨it, _, hmem⟩ := hp
    rw [writeTargets_taskOps] at hmem
    rcases List.mem_cons.mp hmem with rfl | hmem
    · exact ⟨[taskDirName it.1, taskFileName it.1], by simp⟩
    rcases List.mem_cons.mp hmem with rfl | hmem
    · exact ⟨[taskDirName it.1, noteFileName it.1], by simp⟩
    rcases List.mem_cons.mp hmem with rfl | hmem
    · exact ⟨[taskDirName it.1, reviewFileName it.1], by simp⟩
    · exact absurd hmem (by simp)

lemma lastWrite_phaseOps_list_ne (base : DirPath) (l : List Phase) (n : Nat)
    (h : ∀ q ∈ l, q.number ≠ n) (path : DirPath)
    (hshape : ∃ suffix, path = (base ++ [phaseDirName n]) ++ suffix) :
    lastWrite (l.flatMap (phaseOps base)) path = none := by
  obtain ⟨suffix, rfl⟩ := hshape
  apply lastWrite_eq_none
  rw [writeTargets_flatMap]
  intro hc
  rw [List.mem_flatMap] at hc
  obtain ⟨q, hq, hmem⟩ := hc
  obtain ⟨r, hr⟩ := writeTargets_phaseOps_shape base q _ hmem
  obtain ⟨hx, _⟩ := append_one_inj hr.symm
  exact h q hq (phaseDirName_inj hx)

lemma lastWrite_taskOps_ne_idx (pd : DirPath) (it : Nat × Task) (m : Nat) (f : String)
    (hm : m ≠ it.1) :
    lastWrite (taskOps pd it) (pd ++ [taskDirName m, f]) = none := by
  apply lastWrite_eq_none
  rw [writeTargets_taskOps]
  intro hc
  rcases List.mem_cons.mp hc with he | hc
  · exact hm (taskDirName_inj (path2_inj he).1)
  rcases List.mem_cons.mp hc with he | hc
  · exact hm (taskDirName_inj (path2_inj he).1)
  rcases List.mem_cons.mp hc with he | hc
  · exact hm (taskDirName_inj (path2_inj he).1)
  · exact absurd hc (by simp)

lemma lastWrite_taskBlocks_lt (pd : DirPath) :
    ∀ (ts : List Task) (k m : Nat) (f : String), m < k →
      lastWrite ((List.enumFrom k ts).flatMap (taskOps pd)) (pd ++ [taskDirName m, f])
        = none := by
  intro ts
  induction ts with
  | nil => intro k m f _; rfl
  | cons t ts ih =>
    intro k m f hmk
    rw [List.enumFrom, List.flatMap_cons, lastWrite_append,
        ih (k + 1) m f (by omega), lastWrite_taskOps_ne_idx pd (k, t) m f (by omega)]

lemma lastWrite_taskOps_own (pd : DirPath) (it : Nat × Task) :
    lastWrite (taskOps pd it) (pd ++ [taskDirName it.1, taskFileName it.1])
        = some it.2.to_task_md
      ∧ lastWrite (taskOps pd it) (pd ++ [taskDirName it.1, noteFileName it.1]) = some ""
      ∧ lastWrite (taskOps pd it) (pd ++ [taskDirName it.1, reviewFileName it.1]) = some "" := by
  have h1 : pd ++ [taskDirName it.1, taskFileName it.1]
      ≠ pd ++ [taskDirName it.1, noteFileName it.1] := fun he =>
    taskFileName_ne_noteFileName it.1 (path2_inj he).2
  have h2 : pd ++ [taskDirName it.1, taskFileName it.1]
      ≠ pd ++ [taskDirName it.1, reviewFileName it.1] := fun he =>
    taskFileName_ne_reviewFileName it.1 (path2_inj he).2
  have h3 : pd ++ [taskDirName it.1, noteFileName it.1]
      ≠ pd ++ [taskDirName it.1, reviewFileName it.1] := fun he =>
    noteFileName_ne_reviewFileName it.1 (path2_inj he).2
  refine ⟨?_, ?_, ?_⟩ <;> simp [taskOps, lastWrite, h1, h2, h3]

lemma lastWrite_taskBlocks_at (pd : DirPath) :
    ∀ (ts : List Task) (k j : Nat) (hj : j < ts.length),
      lastWrite ((List.enumFrom k ts).flatMap (taskOps pd))
          (pd ++ [taskDirName (k + j), taskFileName (k + j)])
        = some (ts.get ⟨j, hj⟩).to_task_md
      ∧ lastWrite ((List.enumFrom k ts).flatMap (taskOps pd))
          (pd ++ [taskDirName (k + j), noteFileName (k + j)]) = some ""
      ∧ lastWrite ((List.enumFrom k ts).flatMap (taskOps pd))
          (pd ++ [taskDirName (k + j), reviewFileName (k + j)]) = some "" := by
  intro ts
  induction ts with
  | nil => intro k j hj; exact absurd hj (by simp)
  | cons t ts ih =>
    intro k j hj
    rw [List.enumFrom, List.flatMap_cons]
    cases j with
    | zero =>
      simp only [Nat.add_zero]
      have hrest : ∀ f : String,
          lastWrite ((List.enumFrom (k + 1) ts).flatMap (taskOps pd))
            (pd ++ [taskDirName k, f]) = none := fun f =>
        lastWrite_taskBlocks_lt pd ts (k + 1) k f (by omega)
      have hown := lastWrite_taskOps_own pd (k, t)
      have hget : (t :: ts).get ⟨0, hj⟩ = t := rfl
      rw [hget]
      refine ⟨?_, ?_, ?_⟩
      · rw [lastWrite_append, hrest]
        exact hown.1
      · rw [lastWrite_append, hrest]
        exact hown.2.1
      · rw [lastWrite_append, hrest]
        exact hown.2.2
    | succ j2 =>
      have hj2 : j2 < ts.length := by simpa using Nat.lt_of_succ_lt_succ hj
      have hidx : k + (j2 + 1) = (k + 1) + j2 := by omega
      have hrec := ih (k + 1) j2 hj2
      have hget : (t :: ts).get ⟨j2 + 1, hj⟩ = ts.get ⟨j2, hj2⟩ := rfl
      rw [hidx, hget]
      refine ⟨?_, ?_, ?_⟩ <;> rw [lastWrite_append]
      · rw [hrec.1]
      · rw [hrec.2.1]
      · rw [hrec.2.2]

lemma lastWrite_mkdir_cons (p : DirPath) (ops : List FOp) (q : DirPath) :
    lastWrite (.mkdir p :: ops) q = lastWrite ops q := by
  cases h : lastWrite ops q <;> simp [lastWrite, h]

lemma path_flat2 (base : DirPath) (x y : String) :
    base ++ [x, y] = (base ++ [x]) ++ [y] := by simp

lemma path_flat3 (base : DirPath) (x y z : String) :
    base ++ [x, y, z] = (base ++ [x]) ++ [y, z] := by simp

lemma lastWrite_cons_of_some {op : FOp} {ops : List FOp} {q : DirPath} {v : String}
    (h : lastWrite ops q = some v) : lastWrite (op :: ops) q = some v := by
  simp [lastWrite, h]

lemma lastWrite_write_cons_of_none {p : DirPath} {c : String} {ops : List FOp} {q : DirPath}
    (h : lastWrite ops q = none) :
    lastWrite (.write p c :: ops) q = if q = p then some c else none := by
  simp [lastWrite, h]

lemma checklist_ne_taskpath (base : DirPath) (n : Nat) (s t : String) :
    base ++ [phaseDirName n] ++ [checklistName n]
      ≠ (base ++ [phaseDirName n]) ++ [s, t] := by
  intro he
  have hc := congrArg List.length he
  simp only [List.length_append, List.length_cons, List.length_nil] at hc
  omega

lemma lastWrite_phaseOps_checklist (base : DirPath) (p : Phase) :
    lastWrite (phaseOps base p)
        (base ++ [phaseDirName p.number] ++ [checklistName p.number])
      = some p.to_checklist_md := by
  have hblocks : lastWrite
      ((List.enumFrom 1 p.tasks).flatMap (taskOps (base ++ [phaseDirName p.number])))
      (base ++ [phaseDirName p.number] ++ [checklistName p.number]) = none := by
    apply lastWrite_eq_none
    rw [writeTargets_flatMap]
    intro hc
    rw [List.mem_flatMap] at hc
    obtain ⟨it, _, hmem⟩ := hc
    rw [writeTargets_taskOps] at hmem
    rcases List.mem_cons.mp hmem with he | hmem
    · exact checklist_ne_taskpath base p.number _ _ he
    rcases List.mem_cons.mp hmem with he | hmem
    · exact checklist_ne_taskpath base p.number _ _ he
    rcases List.mem_cons.mp hmem with he | hmem
    · exact checklist_ne_taskpath base p.number _ _ he
    · exact absurd hmem (by simp)
  show lastWrite (.mkdir _ :: .write _ _ :: _) _ = _
  rw [lastWrite_mkdir_cons, lastWrite_write_cons_of_none hblocks, if_pos (by simp)]

lemma lastWrite_phaseOps_taskfiles (base : DirPath) (p : Phase) (i : Nat)
    (hi : i < p.tasks.length) :
    lastWrite (phaseOps base p)
        ((base ++ [phaseDirName p.number]) ++ [taskDirName (i + 1), taskFileName (i + 1)])
      = some (p.tasks.get ⟨i, hi⟩).to_task_md
    ∧ lastWrite (phaseOps base p)
        ((base ++ [phaseDirName p.number]) ++ [taskDirName (i + 1), noteFileName (i + 1)])
      = some ""
    ∧ lastWrite (phaseOps base p)
        ((base ++ [phaseDirName p.number]) ++ [taskDirName (i + 1), reviewFileName (i + 1)])
      = some "" := by
  have h := lastWrite_taskBlocks_at (base ++ [phaseDirName p.number]) p.tasks 1 i hi
  rw [Nat.add_comm 1 i] at h
  refine ⟨?_, ?_, ?_⟩
  · show lastWrite (.mkdir _ :: .write _ _ :: _) _ = _
    rw [lastWrite_mkdir_cons]
    exact lastWrite_cons_of_some h.1
  · show lastWrite (.mkdir _ :: .write _ _ :: _) _ = _
    rw [lastWrite_mkdir_cons]
    exact lastWrite_cons_of_some h.2.1
  · show lastWrite (.mkdir _ :: .write _ _ :: _) _ = _
    rw [lastWrite_mkdir_cons]
    exact lastWrite_cons_of_some h.2.2

lemma nodup_middle_numbers {l1 l2 : List Phase} {p : Phase}
    (hnd : (((l1 ++ p :: l2)).map Phase.number).Nodup) :
    (∀ q ∈ l1, q.number ≠ p.number) ∧ (∀ q ∈ l2, q.number ≠ p.number) := by
  rw [List.map_append, List.map_cons, List.nodup_append] at hnd
  obtain ⟨_, hnd2, hdisj⟩ := hnd
  constructor
  · intro q hq he
    exact hdisj (List.mem_map_of_mem Phase.number hq) (by simp [he])
  · intro q hq he
    have := (List.nodup_cons.mp hnd2).1
    exact this (by rw [← he]; exact List.mem_map_of_mem Phase.number hq)

lemma lastWrite_createOps_files (phases : List Phase) (base : DirPath) (p : Phase)
    (hmem : p ∈ phases) (hnd : (phases.map Phase.number).Nodup) :
    lastWrite (createOps phases base)
        (base ++ [phaseDirName p.number] ++ [checklistName p.number])
      = some p.to_checklist_md
    ∧ ∀ (i : Nat) (hi : i < p.tasks.length),
        lastWrite (createOps phases base)
            ((base ++ [phaseDirName p.number]) ++ [taskDirName (i + 1), taskFileName (i + 1)])
          = some (p.tasks.get ⟨i, hi⟩).to_task_md
        ∧ lastWrite (createOps phases base)
            ((base ++ [phaseDirName p.number]) ++ [taskDirName (i + 1), noteFileName (i + 1)])
          = some ""
        ∧ lastWrite (createOps phases base)
            ((base ++ [phaseDirName p.number]) ++ [taskDirName (i + 1), reviewFileName (i + 1)])
          = some "" := by
  obtain ⟨l1, l2, rfl⟩ := List.append_of_mem hmem
  obtain ⟨h1, h2⟩ := nodup_middle_numbers hnd
  have hsplit : createOps (l1 ++ p :: l2) base
      = .mkdir base :: (l1.flatMap (phaseOps base)
          ++ (phaseOps base p ++ l2.flatMap (phaseOps base))) := by
    simp [createOps, List.flatMap_append, List.flatMap_cons]
  have hkey : ∀ path : DirPath,
      (∃ suffix, path = (base ++ [phaseDirName p.number]) ++ suffix) →
      ∀ v : String, lastWrite (phaseOps base p) path = some v →
        lastWrite (createOps (l1 ++ p :: l2) base) path = some v := by
    intro path hsh v hv
    rw [hsplit, lastWrite_mkdir_cons, lastWrite_append, lastWrite_append,
        lastWrite_phaseOps_list_ne base l2 p.number h2 path hsh, hv]
  refine ⟨?_, ?_⟩
  · exact hkey _ ⟨[checklistName p.number], rfl⟩ _ (lastWrite_phaseOps_checklist base p)
  · intro i hi
    have h := lastWrite_phaseOps_taskfiles base p i hi
    exact ⟨hkey _ ⟨[taskDirName (i + 1), taskFileName (i + 1)], rfl⟩ _ h.1,
           hkey _ ⟨[taskDirName (i + 1), noteFileName (i + 1)], rfl⟩ _ h.2.1,
           hkey _ ⟨[taskDirName (i + 1), reviewFileName (i + 1)], rfl⟩ _ h.2.2⟩

lemma enumFrom_mem_get : ∀ (ts : List Task) (k i : Nat) (hi : i < ts.length),
    (k + i, ts.get ⟨i, hi⟩) ∈ List.enumFrom k ts := by
  intro ts
  induction ts with
  | nil => intro k i hi; exact absurd hi (by simp)
  | cons t ts ih =>
    intro k i hi
    cases i with
    | zero => simp [List.enumFrom]
    | succ j =>
      have hj : j < ts.length := by simpa using Nat.lt_of_succ_lt_succ hi
      have := ih (k + 1) j hj
      rw [List.enumFrom]
      refine List.mem_cons_of_mem _ ?_
      have hidx : k + (j + 1) = (k + 1) + j := by omega
      rw [hidx]
      exact this

lemma mkdirTargets_createOps_mem (phases : List Phase) (base : DirPath) (p : Phase)
    (hmem : p ∈ phases) :
    (base ++ [phaseDirName p.number]) ∈ mkdirTargets (createOps phases base)
    ∧ ∀ (i : Nat) (_ : i < p.tasks.length),
        (base ++ [phaseDirName p.number]) ++ [taskDirName (i + 1)]
          ∈ mkdirTargets (createOps phases base) := by
  have hsplit : mkdirTargets (createOps phases base)
      = base :: phases.flatMap (fun q => mkdirTargets (phaseOps base q)) := by
    show mkdirTargets (.mkdir base :: _) = _
    rw [mkdirTargets_cons, mkdirTargets_flatMap]
    rfl
  rw [hsplit]
  constructor
  · refine List.mem_cons_of_mem _ ?_
    rw [List.mem_flatMap]
    exact ⟨p, hmem, by rw [mkdirTargets_phaseOps]; exact List.mem_cons_self _ _⟩
  · intro i hi
    refine List.mem_cons_of_mem _ ?_
    rw [List.mem_flatMap]
    refine ⟨p, hmem, ?_⟩
    rw [mkdirTargets_phaseOps]
    refine List.mem_cons_of_mem _ ?_
    rw [List.mem_flatMap]
    refine ⟨(1 + i, p.tasks.get ⟨i, hi⟩), enumFrom_mem_get p.tasks 1 i hi, ?_⟩
    rw [mkdirTargets_taskOps]
    simp [Nat.add_comm 1 i]

/-! ### Claim C5: materializer layout -/

/-- C5 counterexample: for the parsed phase list `[Phase 1 "A", Phase 1 "B"]`
(two phases sharing the number 1, as produced by a document with two
`## Phase 1:` headings), the final `out/Phase1/TaskCheckList1.md` does not
hold each phase's checklist render: the second write clobbers the first. -/
theorem materializer_layout_counterexample :
    ¬ (∀ p ∈ [(⟨1, "A", "", []⟩ : Phase), ⟨1, "B", "", []⟩],
        (create_phase_structure [⟨1, "A", "", []⟩, ⟨1, "B", "", []⟩] ["out"] emptyFS).files
            (["out"] ++ [phaseDirName p.number, checklistName p.number])
          = some p.to_checklist_md) := by
  intro h
  have hA := h ⟨1, "A", "", []⟩ (by simp)
  have hres : (create_phase_structure [⟨1, "A", "", []⟩, ⟨1, "B", "", []⟩] ["out"]
      emptyFS).files (["out"] ++ [phaseDirName (1 : Nat), checklistName (1 : Nat)])
      = some (Phase.to_checklist_md ⟨1, "B", "", []⟩) := rfl
  rw [hres] at hA
  exact absurd (Option.some.inj hA) (by decide)

/-- C5 (amended with pairwise-distinct phase numbers): the materializer
leaves, for each phase, the directory `base/Phase<N>` with
`TaskCheckList<N>.md` holding the phase's checklist render, and for each
owned task at 1-based positional index `i+1` the directory
`Phase<N>/Task<i+1>` with `Task<i+1>.md` holding the task's detail render
and `TaskCompleteNote<i+1>.md`, `TaskReview<i+1>.md` both empty (truncating
whatever was there). -/
theorem materializer_layout (phases : List Phase) (base : DirPath) (fs : FS)
    (hnd : (phases.map Phase.number).Nodup) :
    ∀ p ∈ phases,
      (base ++ [phaseDirName p.number]) ∈ (create_phase_structure phases base fs).dirs
      ∧ (create_phase_structure phases base fs).files
          (base ++ [phaseDirName p.number, checklistName p.number])
        = some p.to_checklist_md
      ∧ ∀ (i : Nat) (hi : i < p.tasks.length),
          (base ++ [phaseDirName p.number, taskDirName (i + 1)])
            ∈ (create_phase_structure phases base fs).dirs
          ∧ (create_phase_structure phases base fs).files
              (base ++ [phaseDirName p.number, taskDirName (i + 1), taskFileName (i + 1)])
            = some (p.tasks.get ⟨i, hi⟩).to_task_md
          ∧ (create_phase_structure phases base fs).files
              (base ++ [phaseDirName p.number, taskDirName (i + 1), noteFileName (i + 1)])
            = some ""
          ∧ (create_phase_structure phases base fs).files
              (base ++ [phaseDirName p.number, taskDirName (i + 1), reviewFileName (i + 1)])
            = some "" := by
  intro p hmem
  have hcreate : create_phase_structure phases base fs
      = applyOps (createOps phases base) fs := rfl
  have hfiles := lastWrite_createOps_files phases base p hmem hnd
  have hdirs := mkdirTargets_createOps_mem phases base p hmem
  refine ⟨?_, ?_, ?_⟩
  · rw [hcreate, mem_dirs_applyOps]
    exact Or.inr hdirs.1
  · rw [hcreate, files_applyOps, path_flat2, hfiles.1]
  · intro i hi
    have hf := hfiles.2 i hi
    refine ⟨?_, ?_, ?_, ?_⟩
    · rw [hcreate, mem_dirs_applyOps]
      exact Or.inr (by rw [path_flat2]; exact hdirs.2 i hi)
    · rw [hcreate, files_applyOps, path_flat3, hf.1]
    · rw [hcreate, files_applyOps, path_flat3, hf.2.1]
    · rw [hcreate, files_applyOps, path_flat3, hf.2.2]

theorem materializer_layout_witness :
    (create_phase_structure [⟨1, "A", "", [⟨"1.1", "T", "g", [], "s"⟩]⟩] ["out"]
        emptyFS).files
        (["out"] ++ [phaseDirName 1, taskDirName 1, taskFileName 1])
      = some (Task.to_task_md ⟨"1.1", "T", "g", [], "s"⟩) :=
  (((materializer_layout [⟨1, "A", "", [⟨"1.1", "T", "g", [], "s"⟩]⟩] ["out"] emptyFS
      (by decide)) ⟨1, "A", "", [⟨"1.1", "T", "g", [], "s"⟩]⟩ (by simp)).2.2 0
      (by decide)).2.1

/-! ### Line and string helpers for the parser proofs -/

lemma string_mk_data (s : String) : String.mk s.data = s := by
  cases s
  rfl

lemma splitLines_no_newline : ∀ l : Line, '\n' ∉ l → splitLines l = [l] := by
  intro l
  induction l with
  | nil => intro _; rfl
  | cons c cs ih =>
    intro h
    have hc : ¬ c = '\n' := fun he => h (he ▸ List.mem_cons_self _ _)
    have hcs : '\n' ∉ cs := fun hm => h (List.mem_cons_of_mem _ hm)
    rw [splitLines, if_neg hc, ih hcs]

lemma splitLines_append_newline : ∀ (a b : List Char), '\n' ∉ a →
    splitLines (a ++ '\n' :: b) = a :: splitLines b := by
  intro a
  induction a with
  | nil =>
    intro b _
    show splitLines ('\n' :: b) = [] :: splitLines b
    rw [splitLines, if_pos rfl]
  | cons c cs ih =>
    intro b h
    have hc : ¬ c = '\n' := fun he => h (he ▸ List.mem_cons_self _ _)
    have hcs : '\n' ∉ cs := fun hm => h (List.mem_cons_of_mem _ hm)
    show splitLines (c :: (cs ++ '\n' :: b)) = (c :: cs) :: splitLines b
    rw [splitLines, if_neg hc, ih b hcs]

lemma takeWhile_all_stop {p : Char → Bool} : ∀ (xs : List Char) (y : Char) (ys : List Char),
    (∀ c ∈ xs, p c = true) → p y = false →
    (xs ++ y :: ys).takeWhile p = xs ∧ (xs ++ y :: ys).dropWhile p = y :: ys := by
  intro xs
  induction xs with
  | nil =>
    intro y ys _ hy
    constructor
    · show (y :: ys).takeWhile p = []
      simp [List.takeWhile_cons, hy]
    · show (y :: ys).dropWhile p = y :: ys
      simp [List.dropWhile_cons, hy]
  | cons x xs ih =>
    intro y ys hall hy
    have hx : p x = true := hall x (List.mem_cons_self _ _)
    have hxs : ∀ c ∈ xs, p c = true := fun c hc => hall c (List.mem_cons_of_mem _ hc)
    obtain ⟨h1, h2⟩ := ih y ys hxs hy
    constructor
    · show (x :: (xs ++ y :: ys)).takeWhile p = x :: xs
      simp [List.takeWhile_cons, hx, h1]
    · show (x :: (xs ++ y :: ys)).dropWhile p = y :: ys
      simp [List.dropWhile_cons, hx, h2]

lemma isPrefixOf_append_self (a b : List Char) : a.isPrefixOf (a ++ b) = true := by
  rw [List.isPrefixOf_iff_prefix]
  exact List.prefix_append a b

lemma parseTaskLine_build (ns ti : String) (h1 : ns.data ≠ [])
    (h2 : ∀ c ∈ ns.data, isDigitDot c = true) (h3 : ti.data ≠ []) :
    parseTaskLine (taskHeadPre ++ (ns.data ++ ':' :: ' ' :: ti.data)) = some (ns, ti) := by
  have hdrop : (taskHeadPre ++ (ns.data ++ ':' :: ' ' :: ti.data)).drop 9
      = ns.data ++ ':' :: ' ' :: ti.data := by
    rw [show (9 : Nat) = taskHeadPre.length from rfl, List.drop_left]
  have hcolon : isDigitDot ':' = false := by decide
  obtain ⟨htake, hdropw⟩ := takeWhile_all_stop ns.data ':' (' ' :: ti.data) h2 hcolon
  rw [parseTaskLine, if_pos (isPrefixOf_append_self _ _), hdrop]
  simp only [htake, hdropw]
  rw [if_neg (by simpa using h1)]
  have hpre2 : [':', ' '].isPrefixOf (':' :: ' ' :: ti.data) = true := by
    simp [List.isPrefixOf]
  rw [if_pos hpre2, if_neg (by simpa using h3)]
  show some (String.mk ns.data, String.mk ti.data) = some (ns, ti)
  rw [string_mk_data, string_mk_data]

lemma parsePhaseLine_build (m : Nat) (p : String) (h3 : p.data ≠ []) :
    parsePhaseLine (phaseHeadPre ++ ((Nat.repr m).data ++ ':' :: ' ' :: p.data))
      = some (m, p) := by
  have hdrop : (phaseHeadPre ++ ((Nat.repr m).data ++ ':' :: ' ' :: p.data)).drop 9
      = (Nat.repr m).data ++ ':' :: ' ' :: p.data := by
    rw [show (9 : Nat) = phaseHeadPre.length from rfl, List.drop_left]
  have hcolon : Char.isDigit ':' = false := by decide
  obtain ⟨htake, hdropw⟩ := takeWhile_all_stop (Nat.repr m).data ':' (' ' :: p.data)
    (repr_all_digits m) hcolon
  rw [parsePhaseLine, if_pos (isPrefixOf_append_self _ _), hdrop]
  simp only [htake, hdropw]
  have h1 : (Nat.repr m).data ≠ [] := by
    intro he
    have := natOfDigits_repr m
    rw [he] at this
    have h0 : natOfDigits ([] : Line) = 0 := rfl
    rw [h0] at this
    subst this
    exact absurd he (by decide)
  rw [if_neg (by simpa using h1)]
  have hpre2 : [':', ' '].isPrefixOf (':' :: ' ' :: p.data) = true := by
    simp [List.isPrefixOf]
  rw [if_pos hpre2, if_neg (by simpa using h3)]
  show some (natOfDigits (Nat.repr m).data, String.mk p.data) = some (m, p)
  rw [natOfDigits_repr, string_mk_data]

lemma isPrefixOf_append_false : ∀ (x y rem : List Char), x.length ≤ y.length →
    x.isPrefixOf y = false → x.isPrefixOf (y ++ rem) = false := by
  intro x
  induction x with
  | nil =>
    intro y rem _ h
    simp [List.isPrefixOf] at h
  | cons a as ih =>
    intro y rem hlen h
    cases y with
    | nil => simp at hlen
    | cons b bs =>
      rw [List.cons_append]
      cases hab : (a == b) with
      | false => simp [List.isPrefixOf, hab]
      | true =>
        have h2 : as.isPrefixOf bs = false := by
          simpa [List.isPrefixOf, hab] using h
        simp [List.isPrefixOf, hab, ih bs rem (by simpa using hlen) h2]

lemma parsePhaseLine_none_of_prefix_false {l : Line}
    (h : phaseHeadPre.isPrefixOf l = false) : parsePhaseLine l = none := by
  rw [parsePhaseLine, if_neg (by simp [h])]

lemma parseTaskLine_none_of_prefix_false {l : Line}
    (h : taskHeadPre.isPrefixOf l = false) : parseTaskLine l = none := by
  rw [parseTaskLine, if_neg (by simp [h])]

lemma pyRemoveAllF_no_occur (o : Char) (os : Line) :
    ∀ (fuel : Nat) (l : Line), containsSeq (o :: os) l = false →
      pyRemoveAllF (o :: os) fuel l = l := by
  intro fuel
  induction fuel with
  | zero => intro l _; cases l <;> rfl
  | succ f ih =>
    intro l h
    cases l with
    | nil => rfl
    | cons c cs =>
      rw [containsSeq, Bool.or_eq_false_iff] at h
      obtain ⟨hp, hrest⟩ := h
      simp [pyRemoveAllF, hp, ih cs hrest]

lemma pyRemoveAll_prefix_no_reoccur (o : Char) (os rem : Line)
    (h : containsSeq (o :: os) rem = false) :
    pyRemoveAll (o :: os) ((o :: os) ++ rem) = rem := by
  have hpre : (o :: os).isPrefixOf ((o :: os) ++ rem) = true :=
    isPrefixOf_append_self _ _
  have hlen : ((o :: os) ++ rem).length = (os ++ rem).length + 1 := by simp
  have hpre2 : (o :: os).isPrefixOf (o :: (os ++ rem)) = true := hpre
  rw [pyRemoveAll, hlen, show (o :: os) ++ rem = o :: (os ++ rem) from rfl]
  simp only [pyRemoveAllF, hpre2, if_true]
  rw [List.drop_left]
  exact pyRemoveAllF_no_occur o os _ rem h

lemma procLine_goal_marker (st : St) (rem : Line) :
    procLine st (goalMarker ++ rem)
      = .ok { st with
              sec := .goal
              ct := if (pyStrip (pyRemoveAll goalMarker (goalMarker ++ rem))).isEmpty
                    then st.ct
                    else { st.ct with
                           goal := some (String.mk (pyStrip (pyRemoveAll goalMarker
                             (goalMarker ++ rem)))) } } := by
  have hp := parsePhaseLine_none_of_prefix_false
    (isPrefixOf_append_false phaseHeadPre goalMarker rem (by decide) (by decide))
  have ht := parseTaskLine_none_of_prefix_false
    (isPrefixOf_append_false taskHeadPre goalMarker rem (by decide) (by decide))
  rw [procLine]
  simp only [hp, ht]
  rw [if_pos (isPrefixOf_append_self _ _)]

lemma procLine_crit_marker (st : St) (rem : Line) :
    procLine st (criteriaMarker ++ rem)
      = .ok { st with
              sec := .crit
              ct := if (pyStrip (pyRemoveAll criteriaMarker (criteriaMarker ++ rem))).isEmpty
                    then st.ct
                    else { st.ct with
                           crit := some (String.mk (pyStrip (pyRemoveAll criteriaMarker
                             (criteriaMarker ++ rem)))) } } := by
  have hp := parsePhaseLine_none_of_prefix_false
    (isPrefixOf_append_false phaseHeadPre criteriaMarker rem (by decide) (by decide))
  have ht := parseTaskLine_none_of_prefix_false
    (isPrefixOf_append_false taskHeadPre criteriaMarker rem (by decide) (by decide))
  rw [procLine]
  simp only [hp, ht]
  rw [if_neg (by simp [isPrefixOf_append_false goalMarker criteriaMarker rem
        (by decide) (by decide)]),
      if_neg (by simp [isPrefixOf_append_false actionsMarker criteriaMarker rem
        (by decide) (by decide)]),
      if_pos (isPrefixOf_append_self _ _)]

/-! ### Claim C4: marker remainder storage -/

/-- C4 counterexample: on a `**Goal**:` line whose remainder contains the
marker again, `line.replace('**Goal**:', '')` removes the later occurrence
too: the stored goal is `"See  section"`, not the trimmed remainder
`"See **Goal**: section"`. -/
theorem marker_remainder_counterexample :
    parse_action_plan "## Phase 1: P\n### Task 1.1: T\n**Goal**: See **Goal**: section"
      = .ok [⟨1, "P", "", [⟨"1.1", "T", "See  section", [], ""⟩]⟩]
    ∧ ("See  section" : String) ≠ "See **Goal**: section" :=
  ⟨rfl, by decide⟩

/-- C4 (amended): on a `**Goal**:` (resp. `**Success Criteria**:`) line with
a task current, if the remainder after the leading marker does not contain
the marker again and trims to non-empty, exactly the trimmed remainder is
stored as the task's initial goal (resp. success-criteria) text; when the
marker reoccurs, the stored text is instead the line with all marker
occurrences removed, then trimmed. -/
theorem marker_remainder_stored :
    (∀ (st : St) (rem : Line), st.ct.num.isSome = true →
        containsSeq goalMarker rem = false → (pyStrip rem).isEmpty = false →
        procLine st (goalMarker ++ rem)
          = .ok { st with
                  sec := .goal
                  ct := { st.ct with goal := some (String.mk (pyStrip rem)) } })
    ∧ (∀ (st : St) (rem : Line), st.ct.num.isSome = true →
        containsSeq criteriaMarker rem = false → (pyStrip rem).isEmpty = false →
        procLine st (criteriaMarker ++ rem)
          = .ok { st with
                  sec := .crit
                  ct := { st.ct with crit := some (String.mk (pyStrip rem)) } }) := by
  constructor
  · intro st rem _ hno hne
    rw [procLine_goal_marker]
    have hrm : pyRemoveAll goalMarker (goalMarker ++ rem) = rem := by
      rw [show goalMarker = '*' :: ("*Goal**:").data from rfl] at hno ⊢
      exact pyRemoveAll_prefix_no_reoccur '*' (("*Goal**:").data) rem hno
    rw [hrm, if_neg (by simp [hne])]
  · intro st rem _ hno hne
    rw [procLine_crit_marker]
    have hrm : pyRemoveAll criteriaMarker (criteriaMarker ++ rem) = rem := by
      rw [show criteriaMarker = '*' :: ("*Success Criteria**:").data from rfl] at hno ⊢
      exact pyRemoveAll_prefix_no_reoccur '*' (("*Success Criteria**:").data) rem hno
    rw [hrm, if_neg (by simp [hne])]

theorem marker_remainder_stored_witness :
    procLine ⟨[], some ⟨1, "P", "", []⟩, ⟨some "1.1", some "T", none, some [], none⟩, .nil, []⟩
        (goalMarker ++ (" hello ").data)
      = .ok ⟨[], some ⟨1, "P", "", []⟩,
             ⟨some "1.1", some "T", some "hello", some [], none⟩, .goal, []⟩ :=
  marker_remainder_stored.1
    ⟨[], some ⟨1, "P", "", []⟩, ⟨some "1.1", some "T", none, some [], none⟩, .nil, []⟩
    ((" hello ").data) (by decide) (by decide) (by decide)

/-! ### Claim C1: orphan tasks -/

lemma contentStep_cur (st : St) (l : Line) : (contentStep st l).cur = st.cur := by
  obtain ⟨d, c, ct, sec, its⟩ := st
  obtain ⟨n, t, g, a, cr⟩ := ct
  cases sec <;> cases g <;> cases cr <;>
    simp only [contentStep] <;> split_ifs <;> rfl

lemma contentStep_done (st : St) (l : Line) : (contentStep st l).done = st.done := by
  obtain ⟨d, c, ct, sec, its⟩ := st
  obtain ⟨n, t, g, a, cr⟩ := ct
  cases sec <;> cases g <;> cases cr <;>
    simp only [contentStep] <;> split_ifs <;> rfl

lemma parseLoop_step {st st1 : St} {l : Line} {ls : List Line}
    (h : procLine st l = .ok st1) : parseLoop st (l :: ls) = parseLoop st1 ls := by
  show (match procLine st l with
    | .error e => .error e
    | .ok st2 => parseLoop st2 ls) = parseLoop st1 ls
  rw [h]

lemma finishParse_eq (st : St) : finishParse st
    = match (if st.ct.nonempty && st.cur.isSome then appendPending st else .ok st) with
      | .error e => .error e
      | .ok st1 => .ok (st1.done ++ st1.cur.toList) := rfl

lemma parse_action_plan_eq_of_loop {text : String} {st : St}
    (h : parseLoop initSt (splitLines text.data) = .ok st) :
    parse_action_plan text = finishParse st := by
  rw [parse_action_plan, h]

lemma procLine_no_phase (st : St) (l : Line) (hc : st.cur = none)
    (hp : parsePhaseLine l = none) :
    ∃ st2, procLine st l = .ok st2 ∧ st2.cur = none ∧ st2.done = st.done := by
  rw [procLine]
  simp only [hp]
  cases ht : parseTaskLine l with
  | some v =>
    obtain ⟨ns, ti⟩ := v
    dsimp only
    have hif : (if (st.ct.nonempty && st.cur.isSome) = true then appendPending st
        else Except.ok st) = Except.ok st := by
      rw [if_neg]
      simp [hc]
    rw [hif]
    exact ⟨_, rfl, hc, rfl⟩
  | none =>
    dsimp only
    split_ifs <;>
      first
      | exact ⟨_, rfl, hc, rfl⟩
      | exact ⟨_, rfl, by rw [contentStep_cur]; exact hc, contentStep_done st l⟩

lemma parseLoop_no_phase : ∀ (ls : List Line) (st : St), st.cur = none →
    (∀ l ∈ ls, parsePhaseLine l = none) →
    ∃ st2, parseLoop st ls = .ok st2 ∧ st2.cur = none ∧ st2.done = st.done := by
  intro ls
  induction ls with
  | nil => intro st h1 _; exact ⟨st, rfl, h1, rfl⟩
  | cons l ls ih =>
    intro st h1 h2
    obtain ⟨st2, hp, hc2, hd2⟩ := procLine_no_phase st l h1 (h2 l (List.mem_cons_self _ _))
    obtain ⟨st3, hl, hc3, hd3⟩ := ih st2 hc2 (fun x hx => h2 x (List.mem_cons_of_mem _ hx))
    refine ⟨st3, ?_, hc3, by rw [hd3, hd2]⟩
    rw [parseLoop, hp]
    exact hl

lemma newline_not_mem_build (pre : Line) (hpre : '\n' ∉ pre) (mid : Line)
    (hmid : ∀ c ∈ mid, c ≠ '\n') (post : List Char) (hpost : '\n' ∉ post) :
    '\n' ∉ pre ++ (mid ++ ':' :: ' ' :: post) := by
  intro h
  rcases List.mem_append.mp h with h | h
  · exact hpre h
  rcases List.mem_append.mp h with h | h
  · exact hmid _ h rfl
  rcases List.mem_cons.mp h with h | h
  · exact absurd h (by decide)
  rcases List.mem_cons.mp h with h | h
  · exact absurd h (by decide)
  · exact hpost h

/-- C1 counterexample: a Task heading before any Phase heading is not
dropped; it is flushed into the first phase created after it, so the
returned Phase 1 owns the orphan Task 0.1. -/
theorem orphan_task_counterexample :
    parse_action_plan "### Task 0.1: Orphan\n## Phase 1: P"
      = .ok [⟨1, "P", "", [⟨"0.1", "Orphan", "", [], ""⟩]⟩] := rfl

/-- C1 (amended): a Task heading before any Phase heading produces no output
only when no Phase heading ever follows (with no Phase heading in the
document the parser returns no phases at all); when a Phase heading does
follow, the orphan task is appended to that first phase at the next flush
(here: at end of input). -/
theorem orphan_task_behavior :
    (∀ text : String, (∀ l ∈ docLines text, parsePhaseLine l = none) →
        parse_action_plan text = .ok [])
    ∧ (∀ (ns ti : String) (m : Nat) (p : String),
        ns.data ≠ [] → (∀ c ∈ ns.data, isDigitDot c = true) →
        ti.data ≠ [] → '\n' ∉ ti.data → p.data ≠ [] → '\n' ∉ p.data →
        parse_action_plan (String.mk ((taskHeadPre ++ (ns.data ++ ':' :: ' ' :: ti.data))
            ++ '\n' :: (phaseHeadPre ++ ((Nat.repr m).data ++ ':' :: ' ' :: p.data))))
          = .ok [⟨m, p, "", [⟨ns, ti, "", [], ""⟩]⟩]) := by
  constructor
  · intro text hnp
    obtain ⟨st2, hl, hc2, hd2⟩ := parseLoop_no_phase (docLines text) initSt rfl hnp
    rw [parse_action_plan_eq_of_loop hl, finishParse_eq, if_neg (by simp [hc2])]
    show Except.ok (st2.done ++ st2.cur.toList) = Except.ok []
    rw [hd2, hc2]
    rfl
  · intro ns ti m p h1 h2 h3 h4 h5 h6
    have hA : '\n' ∉ taskHeadPre ++ (ns.data ++ ':' :: ' ' :: ti.data) :=
      newline_not_mem_build taskHeadPre (by decide) ns.data
        (fun c hc he => by rw [he] at hc; exact absurd (h2 _ hc) (by decide)) ti.data h4
    have hB : '\n' ∉ phaseHeadPre ++ ((Nat.repr m).data ++ ':' :: ' ' :: p.data) :=
      newline_not_mem_build phaseHeadPre (by decide) (Nat.repr m).data
        (fun c hc he => by
          rw [he] at hc
          exact absurd (repr_all_digits m _ hc) (by decide)) p.data h6
    have hsplit : splitLines ((taskHeadPre ++ (ns.data ++ ':' :: ' ' :: ti.data))
          ++ '\n' :: (phaseHeadPre ++ ((Nat.repr m).data ++ ':' :: ' ' :: p.data)))
        = [taskHeadPre ++ (ns.data ++ ':' :: ' ' :: ti.data),
           phaseHeadPre ++ ((Nat.repr m).data ++ ':' :: ' ' :: p.data)] := by
      rw [splitLines_append_newline _ _ hA, splitLines_no_newline _ hB]
    have hpA : parsePhaseLine (taskHeadPre ++ (ns.data ++ ':' :: ' ' :: ti.data)) = none :=
      parsePhaseLine_none_of_prefix_false
        (isPrefixOf_append_false phaseHeadPre taskHeadPre _ (by decide) (by decide))
    have htA := parseTaskLine_build ns ti h1 h2 h3
    have hpB := parsePhaseLine_build m p h5
    have hstep1 : procLine initSt (taskHeadPre ++ (ns.data ++ ':' :: ' ' :: ti.data))
        = .ok ⟨[], none, ⟨some ns, some ti, none, some [], none⟩, .nil, []⟩ := by
      rw [procLine]
      simp only [hpA, htA]
      rfl
    have hstep2 : procLine ⟨[], none, ⟨some ns, some ti, none, some [], none⟩, .nil, []⟩
          (phaseHeadPre ++ ((Nat.repr m).data ++ ':' :: ' ' :: p.data))
        = .ok ⟨[], some ⟨m, p, "", []⟩, ⟨some ns, some ti, none, some [], none⟩, .nil, []⟩ := by
      rw [procLine]
      simp only [hpB]
      rfl
    have hloop : parseLoop initSt (splitLines (String.mk
          ((taskHeadPre ++ (ns.data ++ ':' :: ' ' :: ti.data))
            ++ '\n' :: (phaseHeadPre ++ ((Nat.repr m).data ++ ':' :: ' ' :: p.data)))).data)
        = .ok ⟨[], some ⟨m, p, "", []⟩, ⟨some ns, some ti, none, some [], none⟩, .nil, []⟩ := by
      rw [show (String.mk ((taskHeadPre ++ (ns.data ++ ':' :: ' ' :: ti.data))
            ++ '\n' :: (phaseHeadPre ++ ((Nat.repr m).data ++ ':' :: ' ' :: p.data)))).data
          = (taskHeadPre ++ (ns.data ++ ':' :: ' ' :: ti.data))
            ++ '\n' :: (phaseHeadPre ++ ((Nat.repr m).data ++ ':' :: ' ' :: p.data)) from rfl,
         hsplit, parseLoop_step hstep1, parseLoop_step hstep2]
      rfl
    rw [parse_action_plan_eq_of_loop hloop]
    rfl

theorem orphan_task_behavior_witness :
    parse_action_plan "hello" = .ok []
    ∧ parse_action_plan (String.mk ((taskHeadPre
          ++ (("0.1" : String).data ++ ':' :: ' ' :: ("Orphan" : String).data))
        ++ '\n' :: (phaseHeadPre
          ++ ((Nat.repr 1).data ++ ':' :: ' ' :: ("P" : String).data))))
      = .ok [⟨1, "P", "", [⟨"0.1", "Orphan", "", [], ""⟩]⟩] :=
  ⟨orphan_task_behavior.1 "hello" (by decide),
   orphan_task_behavior.2 "0.1" "Orphan" 1 "P" (by decide) (by decide) (by decide)
     (by decide) (by decide) (by decide)⟩

/-! ### Claim C7: emitted task field invariants -/

lemma parseTaskLine_some_ne {l : Line} {ns ti : String}
    (h : parseTaskLine l = some (ns, ti)) : ns ≠ "" ∧ ti ≠ "" := by
  simp only [parseTaskLine] at h
  by_cases c1 : taskHeadPre.isPrefixOf l = true
  case neg => rw [if_neg c1] at h; exact absurd h (by simp)
  rw [if_pos c1] at h
  by_cases c2 : ((l.drop 9).takeWhile isDigitDot).isEmpty = true
  case pos => rw [if_pos c2] at h; exact absurd h (by simp)
  rw [if_neg c2] at h
  by_cases c3 : [':', ' '].isPrefixOf ((l.drop 9).dropWhile isDigitDot) = true
  case neg => rw [if_neg c3] at h; exact absurd h (by simp)
  rw [if_pos c3] at h
  by_cases c4 : (((l.drop 9).dropWhile isDigitDot).drop 2).isEmpty = true
  case pos => rw [if_pos c4] at h; exact absurd h (by simp)
  rw [if_neg c4] at h
  simp only [Option.some.injEq, Prod.mk.injEq] at h
  obtain ⟨hns, hti⟩ := h
  constructor
  · intro he
    rw [← hns] at he
    have h9 : (l.drop 9).takeWhile isDigitDot = [] := congrArg String.data he
    rw [h9] at c2
    exact c2 rfl
  · intro he
    rw [← hti] at he
    have h9 : ((l.drop 9).dropWhile isDigitDot).drop 2 = [] := congrArg String.data he
    rw [h9] at c4
    exact c4 rfl

lemma contentStep_ct_num (st : St) (l : Line) :
    (contentStep st l).ct.num = st.ct.num := by
  obtain ⟨d, c, ct, sec, its⟩ := st
  obtain ⟨n, t, g, a, cr⟩ := ct
  cases sec <;> cases g <;> cases cr <;>
    simp only [contentStep] <;> split_ifs <;> rfl

lemma contentStep_ct_title (st : St) (l : Line) :
    (contentStep st l).ct.title = st.ct.title := by
  obtain ⟨d, c, ct, sec, its⟩ := st
  obtain ⟨n, t, g, a, cr⟩ := ct
  cases sec <;> cases g <;> cases cr <;>
    simp only [contentStep] <;> split_ifs <;> rfl

lemma appendPending_ne (st st1 : St)
    (hd : ∀ p ∈ st.done ++ st.cur.toList, ∀ t ∈ p.tasks, t.number ≠ "" ∧ t.title ≠ "")
    (hn : ∀ s, st.ct.num = some s → s ≠ "")
    (ht : ∀ s, st.ct.title = some s → s ≠ "")
    (h : appendPending st = .ok st1) :
    (∀ p ∈ st1.done ++ st1.cur.toList, ∀ t ∈ p.tasks, t.number ≠ "" ∧ t.title ≠ "")
      ∧ st1.done = st.done ∧ st1.ct = st.ct := by
  rw [appendPending] at h
  cases hc : st.cur with
  | none =>
    rw [hc] at h
    cases h
    exact ⟨hd, rfl, rfl⟩
  | some ph =>
    rw [hc] at h
    cases hnum : st.ct.num with
    | none => rw [hnum] at h; exact absurd h (by simp)
    | some n =>
      rw [hnum] at h
      cases htl : st.ct.title with
      | none => rw [htl] at h; exact absurd h (by simp)
      | some t =>
        rw [htl] at h
        simp only [Except.ok.injEq] at h
        subst h
        refine ⟨?_, rfl, rfl⟩
        intro p hp tk htk
        simp only [Option.toList_some, List.mem_append, List.mem_singleton] at hp
        rcases hp with hp | rfl
        · exact hd p (List.mem_append.mpr (Or.inl hp)) tk htk
        · rcases List.mem_append.mp htk with htk | htk
          · refine hd ph ?_ tk htk
            rw [hc]
            exact List.mem_append.mpr (Or.inr (by simp))
          · have : tk = st.ct.emit n t := by simpa using htk
            subst this
            exact ⟨hn n hnum, ht t htl⟩

lemma procLine_ne (st : St) (l : Line) (st2 : St)
    (hd : ∀ p ∈ st.done ++ st.cur.toList, ∀ t ∈ p.tasks, t.number ≠ "" ∧ t.title ≠ "")
    (hn : ∀ s, st.ct.num = some s → s ≠ "")
    (ht : ∀ s, st.ct.title = some s → s ≠ "")
    (h : procLine st l = .ok st2) :
    (∀ p ∈ st2.done ++ st2.cur.toList, ∀ t ∈ p.tasks, t.number ≠ "" ∧ t.title ≠ "")
      ∧ (∀ s, st2.ct.num = some s → s ≠ "")
      ∧ (∀ s, st2.ct.title = some s → s ≠ "") := by
  rw [procLine] at h
  cases hp : parsePhaseLine l with
  | some v =>
    obtain ⟨n, ti⟩ := v
    rw [hp] at h
    dsimp only at h
    by_cases hg : (st.ct.nonempty && st.cur.isSome) = true
    · rw [if_pos hg] at h
      cases ha : appendPending st with
      | error e => rw [ha] at h; exact absurd h (by simp [Except.map])
      | ok st1 =>
        rw [ha] at h
        obtain ⟨hd1, _, _⟩ := appendPending_ne st st1 hd hn ht ha
        simp only [Except.map, Except.ok.injEq] at h
        subst h
        refine ⟨?_, by simp [TaskAcc.empty], by simp [TaskAcc.empty]⟩
        intro p hp2 tk htk
        rcases List.mem_append.mp hp2 with hp2 | hp2
        · exact hd1 p hp2 tk htk
        · have hpeq : p = Phase.mk n ti "" [] := by simpa using hp2
          subst hpeq
          simp at htk
    · rw [if_neg hg] at h
      simp only [Except.ok.injEq] at h
      subst h
      refine ⟨?_, hn, ht⟩
      intro p hp2 tk htk
      rcases List.mem_append.mp hp2 with hp2 | hp2
      · exact hd p hp2 tk htk
      · have hpeq : p = Phase.mk n ti "" [] := by simpa using hp2
        subst hpeq
        simp at htk
  | none =>
    rw [hp] at h
    dsimp only at h
    cases hpt : parseTaskLine l with
    | some v =>
      obtain ⟨ns, ti⟩ := v
      rw [hpt] at h
      dsimp only at h
      obtain ⟨hns, hti⟩ := parseTaskLine_some_ne hpt
      by_cases hg : (st.ct.nonempty && st.cur.isSome) = true
      · rw [if_pos hg] at h
        cases ha : appendPending st with
        | error e => rw [ha] at h; exact absurd h (by simp)
        | ok st1 =>
          rw [ha] at h
          obtain ⟨hd1, _, _⟩ := appendPending_ne st st1 hd hn ht ha
          simp only [Except.ok.injEq] at h
          subst h
          exact ⟨hd1, fun s hs => by
              simp only [Option.some.injEq] at hs
              exact hs ▸ hns,
            fun s hs => by
              simp only [Option.some.injEq] at hs
              exact hs ▸ hti⟩
      · rw [if_neg hg] at h
        simp only [Except.ok.injEq] at h
        subst h
        exact ⟨hd, fun s hs => by
            simp only [Option.some.injEq] at hs
            exact hs ▸ hns,
          fun s hs => by
            simp only [Option.some.injEq] at hs
            exact hs ▸ hti⟩
    | none =>
      rw [hpt] at h
      dsimp only at h
      split_ifs at h
      all_goals simp only [Except.ok.injEq] at h
      all_goals subst h
      all_goals
        first
        | exact ⟨fun p hp2 tk htk => hd p hp2 tk htk,
                 fun s hs => hn s hs,
                 fun s hs => ht s hs⟩
        | exact ⟨fun p hp2 tk htk => hd p
                   (by rwa [contentStep_done, contentStep_cur] at hp2) tk htk,
                 fun s hs => hn s (by rwa [contentStep_ct_num] at hs),
                 fun s hs => ht s (by rwa [contentStep_ct_title] at hs)⟩

lemma parseLoop_ne : ∀ (ls : List Line) (st : St) (st2 : St),
    (∀ p ∈ st.done ++ st.cur.toList, ∀ t ∈ p.tasks, t.number ≠ "" ∧ t.title ≠ "") →
    (∀ s, st.ct.num = some s → s ≠ "") →
    (∀ s, st.ct.title = some s → s ≠ "") →
    parseLoop st ls = .ok st2 →
    (∀ p ∈ st2.done ++ st2.cur.toList, ∀ t ∈ p.tasks, t.number ≠ "" ∧ t.title ≠ "")
      ∧ (∀ s, st2.ct.num = some s → s ≠ "")
      ∧ (∀ s, st2.ct.title = some s → s ≠ "") := by
  intro ls
  induction ls with
  | nil =>
    intro st st2 hd hn ht h
    cases h
    exact ⟨hd, hn, ht⟩
  | cons l ls ih =>
    intro st st2 hd hn ht h
    rw [parseLoop] at h
    cases hx : procLine st l with
    | error e => rw [hx] at h; exact absurd h (by simp)
    | ok st1 =>
      rw [hx] at h
      obtain ⟨hd1, hn1, ht1⟩ := procLine_ne st l st1 hd hn ht hx
      exact ih st1 st2 hd1 hn1 ht1 h

lemma splitLines_joinLines : ∀ ls : List Line, ls ≠ [] → (∀ l ∈ ls, '\n' ∉ l) →
    splitLines (joinLines ls) = ls := by
  intro ls
  induction ls with
  | nil => intro h _; exact absurd rfl h
  | cons l ls ih =>
    intro _ hnl
    cases ls with
    | nil => exact splitLines_no_newline l (hnl l (List.mem_cons_self _ _))
    | cons l2 ls2 =>
      show splitLines (l ++ '\n' :: joinLines (l2 :: ls2)) = l :: l2 :: ls2
      rw [splitLines_append_newline _ _ (hnl l (List.mem_cons_self _ _)),
          ih (by simp) (fun x hx => hnl x (List.mem_cons_of_mem _ hx))]

lemma procLine_inert (st : St) (l : Line) (hsec : st.sec = .nil)
    (hp : parsePhaseLine l = none) (ht : parseTaskLine l = none)
    (h1 : goalMarker.isPrefixOf l = false) (h2 : actionsMarker.isPrefixOf l = false)
    (h3 : criteriaMarker.isPrefixOf l = false) :
    procLine st l = .ok st := by
  rw [procLine]
  simp only [hp, ht]
  rw [if_neg (by simp [h1]), if_neg (by simp [h2]), if_neg (by simp [h3])]
  rw [contentStep, hsec]

lemma parseLoop_inert : ∀ (ls : List Line) (st : St), st.sec = .nil →
    (∀ l ∈ ls, parsePhaseLine l = none ∧ parseTaskLine l = none
      ∧ goalMarker.isPrefixOf l = false ∧ actionsMarker.isPrefixOf l = false
      ∧ criteriaMarker.isPrefixOf l = false) →
    parseLoop st ls = .ok st := by
  intro ls
  induction ls with
  | nil => intro st _ _; rfl
  | cons l ls ih =>
    intro st hsec hall
    obtain ⟨hp, ht, h1, h2, h3⟩ := hall l (List.mem_cons_self _ _)
    rw [parseLoop_step (procLine_inert st l hsec hp ht h1 h2 h3)]
    exact ih st hsec (fun x hx => hall x (List.mem_cons_of_mem _ hx))

/-- C7: every Task emitted by the parser has a non-empty number and a
non-empty title; and a task whose heading is followed by no field lines
(any inert tail) is emitted with goal `""`, success-criteria `""` and no
actions. -/
theorem emitted_task_fields :
    (∀ (text : String) (ps : List Phase), parse_action_plan text = .ok ps →
        ∀ p ∈ ps, ∀ t ∈ p.tasks, t.number ≠ "" ∧ t.title ≠ "")
    ∧ (∀ (ns ti : String) (m : Nat) (p : String) (extra : List Line),
        ns.data ≠ [] → (∀ c ∈ ns.data, isDigitDot c = true) →
        ti.data ≠ [] → '\n' ∉ ti.data → p.data ≠ [] → '\n' ∉ p.data →
        (∀ l ∈ extra, '\n' ∉ l ∧ parsePhaseLine l = none ∧ parseTaskLine l = none
          ∧ goalMarker.isPrefixOf l = false ∧ actionsMarker.isPrefixOf l = false
          ∧ criteriaMarker.isPrefixOf l = false) →
        parse_action_plan (String.mk (joinLines
            ((phaseHeadPre ++ ((Nat.repr m).data ++ ':' :: ' ' :: p.data))
              :: (taskHeadPre ++ (ns.data ++ ':' :: ' ' :: ti.data)) :: extra)))
          = .ok [⟨m, p, "", [⟨ns, ti, "", [], ""⟩]⟩]) := by
  constructor
  · intro text ps h p hp t htk
    rw [parse_action_plan] at h
    cases hl : parseLoop initSt (splitLines text.data) with
    | error e => rw [hl] at h; exact absurd h (by simp)
    | ok st =>
      rw [hl] at h
      dsimp only at h
      obtain ⟨hd2, hn2, ht2⟩ := parseLoop_ne (splitLines text.data) initSt st
        (by simp [initSt]) (by simp [initSt, TaskAcc.empty]) (by simp [initSt, TaskAcc.empty]) hl
      rw [finishParse_eq] at h
      by_cases hg : (st.ct.nonempty && st.cur.isSome) = true
      · rw [if_pos hg] at h
        cases ha : appendPending st with
        | error e => rw [ha] at h; exact absurd h (by simp)
        | ok st1 =>
          rw [ha] at h
          obtain ⟨hd3, _, _⟩ := appendPending_ne st st1 hd2 hn2 ht2 ha
          simp only [Except.ok.injEq] at h
          subst h
          exact hd3 p hp t htk
      · rw [if_neg hg] at h
        simp only [Except.ok.injEq] at h
        subst h
        exact hd2 p hp t htk
  · intro ns ti m p extra h1 h2 h3 h4 h5 h6 hextra
    have hA : '\n' ∉ phaseHeadPre ++ ((Nat.repr m).data ++ ':' :: ' ' :: p.data) :=
      newline_not_mem_build phaseHeadPre (by decide) (Nat.repr m).data
        (fun c hc he => by
          rw [he] at hc
          exact absurd (repr_all_digits m _ hc) (by decide)) p.data h6
    have hB : '\n' ∉ taskHeadPre ++ (ns.data ++ ':' :: ' ' :: ti.data) :=
      newline_not_mem_build taskHeadPre (by decide) ns.data
        (fun c hc he => by rw [he] at hc; exact absurd (h2 _ hc) (by decide)) ti.data h4
    have hsplit : splitLines (joinLines
          ((phaseHeadPre ++ ((Nat.repr m).data ++ ':' :: ' ' :: p.data))
            :: (taskHeadPre ++ (ns.data ++ ':' :: ' ' :: ti.data)) :: extra))
        = (phaseHeadPre ++ ((Nat.repr m).data ++ ':' :: ' ' :: p.data))
            :: (taskHeadPre ++ (ns.data ++ ':' :: ' ' :: ti.data)) :: extra := by
      refine splitLines_joinLines _ (by simp) ?_
      intro x hx
      rcases List.mem_cons.mp hx with rfl | hx
      · exact hA
      rcases List.mem_cons.mp hx with rfl | hx
      · exact hB
      · exact (hextra x hx).1
    have hpB := parsePhaseLine_build m p h5
    have hpA : parsePhaseLine (taskHeadPre ++ (ns.data ++ ':' :: ' ' :: ti.data)) = none :=
      parsePhaseLine_none_of_prefix_false
        (isPrefixOf_append_false phaseHeadPre taskHeadPre _ (by decide) (by decide))
    have htA := parseTaskLine_build ns ti h1 h2 h3
    have hstep1 : procLine initSt
          (phaseHeadPre ++ ((Nat.repr m).data ++ ':' :: ' ' :: p.data))
        = .ok ⟨[], some ⟨m, p, "", []⟩, TaskAcc.empty, .nil, []⟩ := by
      rw [procLine]
      simp only [hpB]
      rfl
    have hstep2 : procLine ⟨[], some ⟨m, p, "", []⟩, TaskAcc.empty, .nil, []⟩
          (taskHeadPre ++ (ns.data ++ ':' :: ' ' :: ti.data))
        = .ok ⟨[], some ⟨m, p, "", []⟩,
               ⟨some ns, some ti, none, some [], none⟩, .nil, []⟩ := by
      rw [procLine]
      simp only [hpA, htA]
      rfl
    have hloop : parseLoop initSt (splitLines (String.mk (joinLines
          ((phaseHeadPre ++ ((Nat.repr m).data ++ ':' :: ' ' :: p.data))
            :: (taskHeadPre ++ (ns.data ++ ':' :: ' ' :: ti.data)) :: extra))).data)
        = .ok ⟨[], some ⟨m, p, "", []⟩,
               ⟨some ns, some ti, none, some [], none⟩, .nil, []⟩ := by
      rw [show (String.mk (joinLines
            ((phaseHeadPre ++ ((Nat.repr m).data ++ ':' :: ' ' :: p.data))
              :: (taskHeadPre ++ (ns.data ++ ':' :: ' ' :: ti.data)) :: extra))).data
          = joinLines ((phaseHeadPre ++ ((Nat.repr m).data ++ ':' :: ' ' :: p.data))
              :: (taskHeadPre ++ (ns.data ++ ':' :: ' ' :: ti.data)) :: extra) from rfl,
          hsplit, parseLoop_step hstep1, parseLoop_step hstep2]
      exact parseLoop_inert extra _ rfl (fun x hx => (hextra x hx).2)
    rw [parse_action_plan_eq_of_loop hloop]
    rfl

theorem emitted_task_fields_witness :
    ((⟨"1.1", "Init repo", "", [], ""⟩ : Task).number ≠ ""
      ∧ (⟨"1.1", "Init repo", "", [], ""⟩ : Task).title ≠ "")
    ∧ parse_action_plan (String.mk (joinLines
        ((phaseHeadPre ++ ((Nat.repr 1).data ++ ':' :: ' ' :: ("Setup" : String).data))
          :: (taskHeadPre ++ (("1.1" : String).data ++ ':' :: ' ' :: ("T" : String).data))
          :: [("just prose").data])))
      = .ok [⟨1, "Setup", "", [⟨"1.1", "T", "", [], ""⟩]⟩] :=
  ⟨emitted_task_fields.1 "## Phase 1: Setup\n### Task 1.1: Init repo"
      [⟨1, "Setup", "", [⟨"1.1", "Init repo", "", [], ""⟩]⟩] rfl
      ⟨1, "Setup", "", [⟨"1.1", "Init repo", "", [], ""⟩]⟩ (by simp)
      ⟨"1.1", "Init repo", "", [], ""⟩ (by simp),
   emitted_task_fields.2 "1.1" "T" 1 "Setup" [("just prose").data]
     (by decide) (by decide) (by decide) (by decide) (by decide) (by decide) (by decide)⟩

/-! ### Claim C8: multi-line goal joining -/

lemma procLine_content (st : St) (l : Line)
    (hp : parsePhaseLine l = none) (ht : parseTaskLine l = none)
    (h1 : goalMarker.isPrefixOf l = false) (h2 : actionsMarker.isPrefixOf l = false)
    (h3 : criteriaMarker.isPrefixOf l = false) :
    procLine st l = .ok (contentStep st l) := by
  rw [procLine]
  simp only [hp, ht]
  rw [if_neg (by simp [h1]), if_neg (by simp [h2]), if_neg (by simp [h3])]

lemma parsePhaseLine_none_of_no_hash {l : Line} (h : ['#'].isPrefixOf l = false) :
    parsePhaseLine l = none := by
  apply parsePhaseLine_none_of_prefix_false
  cases hp : phaseHeadPre.isPrefixOf l
  · rfl
  · rw [List.isPrefixOf_iff_prefix] at hp
    have h2 : ['#'].isPrefixOf l = true := by
      rw [List.isPrefixOf_iff_prefix]
      exact List.IsPrefix.trans (by decide) hp
    rw [h2] at h
    exact absurd h (by simp)

lemma parseTaskLine_none_of_no_hash {l : Line} (h : ['#'].isPrefixOf l = false) :
    parseTaskLine l = none := by
  apply parseTaskLine_none_of_prefix_false
  cases hp : taskHeadPre.isPrefixOf l
  · rfl
  · rw [List.isPrefixOf_iff_prefix] at hp
    have h2 : ['#'].isPrefixOf l = true := by
      rw [List.isPrefixOf_iff_prefix]
      exact List.IsPrefix.trans (by decide) hp
    rw [h2] at h
    exact absurd h (by simp)

/-- C8: a bare `**Goal**:` marker followed by two consecutive non-blank,
non-heading, non-marker lines yields a task whose goal is the two lines'
trimmed contents joined with a single space, and the rendered detail page
embeds exactly that joined text after the `**Goal**: ` marker. -/
theorem multiline_goal_joined (ns ti : String) (m : Nat) (p : String) (l1 l2 : Line)
    (h1 : ns.data ≠ []) (h2 : ∀ c ∈ ns.data, isDigitDot c = true)
    (h3 : ti.data ≠ []) (h4 : '\n' ∉ ti.data) (h5 : p.data ≠ []) (h6 : '\n' ∉ p.data)
    (hn1 : '\n' ∉ l1) (hn2 : '\n' ∉ l2)
    (hs1 : (pyStrip l1).isEmpty = false) (hs2 : (pyStrip l2).isEmpty = false)
    (hh1 : ['#'].isPrefixOf l1 = false) (hh2 : ['#'].isPrefixOf l2 = false)
    (hm1g : goalMarker.isPrefixOf l1 = false) (hm1a : actionsMarker.isPrefixOf l1 = false)
    (hm1c : criteriaMarker.isPrefixOf l1 = false)
    (hm2g : goalMarker.isPrefixOf l2 = false) (hm2a : actionsMarker.isPrefixOf l2 = false)
    (hm2c : criteriaMarker.isPrefixOf l2 = false) :
    parse_action_plan (String.mk (joinLines
        [phaseHeadPre ++ ((Nat.repr m).data ++ ':' :: ' ' :: p.data),
         taskHeadPre ++ (ns.data ++ ':' :: ' ' :: ti.data),
         goalMarker, l1, l2]))
      = .ok [⟨m, p, "",
          [⟨ns, ti, String.mk (pyStrip l1) ++ " " ++ String.mk (pyStrip l2), [], ""⟩]⟩]
    ∧ Task.to_task_md ⟨ns, ti, String.mk (pyStrip l1) ++ " " ++ String.mk (pyStrip l2), [], ""⟩
      = "# " ++ ("Task " ++ ns ++ ": " ++ ti) ++ "\n\n**Goal**: "
        ++ (String.mk (pyStrip l1) ++ " " ++ String.mk (pyStrip l2))
        ++ "\n\n**Actions**:\n\n" ++ "" ++ "\n\n**Success Criteria**: " ++ "" ++ "\n" := by
  have hA : '\n' ∉ phaseHeadPre ++ ((Nat.repr m).data ++ ':' :: ' ' :: p.data) :=
    newline_not_mem_build phaseHeadPre (by decide) (Nat.repr m).data
      (fun c hc he => by
        rw [he] at hc
        exact absurd (repr_all_digits m _ hc) (by decide)) p.data h6
  have hB : '\n' ∉ taskHeadPre ++ (ns.data ++ ':' :: ' ' :: ti.data) :=
    newline_not_mem_build taskHeadPre (by decide) ns.data
      (fun c hc he => by rw [he] at hc; exact absurd (h2 _ hc) (by decide)) ti.data h4
  have hsplit : splitLines (joinLines
        [phaseHeadPre ++ ((Nat.repr m).data ++ ':' :: ' ' :: p.data),
         taskHeadPre ++ (ns.data ++ ':' :: ' ' :: ti.data),
         goalMarker, l1, l2])
      = [phaseHeadPre ++ ((Nat.repr m).data ++ ':' :: ' ' :: p.data),
         taskHeadPre ++ (ns.data ++ ':' :: ' ' :: ti.data),
         goalMarker, l1, l2] := by
    refine splitLines_joinLines _ (by simp) ?_
    intro x hx
    rcases List.mem_cons.mp hx with rfl | hx
    · exact hA
    rcases List.mem_cons.mp hx with rfl | hx
    · exact hB
    rcases List.mem_cons.mp hx with rfl | hx
    · decide
    rcases List.mem_cons.mp hx with rfl | hx
    · exact hn1
    rcases List.mem_cons.mp hx with rfl | hx
    · exact hn2
    · exact absurd hx (by simp)
  have hpB := parsePhaseLine_build m p h5
  have hpA : parsePhaseLine (taskHeadPre ++ (ns.data ++ ':' :: ' ' :: ti.data)) = none :=
    parsePhaseLine_none_of_prefix_false
      (isPrefixOf_append_false phaseHeadPre taskHeadPre _ (by decide) (by decide))
  have htA := parseTaskLine_build ns ti h1 h2 h3
  have hstep1 : procLine initSt
        (phaseHeadPre ++ ((Nat.repr m).data ++ ':' :: ' ' :: p.data))
      = .ok ⟨[], some ⟨m, p, "", []⟩, TaskAcc.empty, .nil, []⟩ := by
    rw [procLine]
    simp only [hpB]
    rfl
  have hstep2 : procLine ⟨[], some ⟨m, p, "", []⟩, TaskAcc.empty, .nil, []⟩
        (taskHeadPre ++ (ns.data ++ ':' :: ' ' :: ti.data))
      = .ok ⟨[], some ⟨m, p, "", []⟩,
             ⟨some ns, some ti, none, some [], none⟩, .nil, []⟩ := by
    rw [procLine]
    simp only [hpA, htA]
    rfl
  have hstep3 : procLine ⟨[], some ⟨m, p, "", []⟩,
        ⟨some ns, some ti, none, some [], none⟩, .nil, []⟩ goalMarker
      = .ok ⟨[], some ⟨m, p, "", []⟩,
             ⟨some ns, some ti, none, some [], none⟩, .goal, []⟩ := by
    have h := procLine_goal_marker ⟨[], some ⟨m, p, "", []⟩,
      ⟨some ns, some ti, none, some [], none⟩, .nil, []⟩ []
    rw [List.append_nil] at h
    rw [h]
    rfl
  have hstep4 : procLine ⟨[], some ⟨m, p, "", []⟩,
        ⟨some ns, some ti, none, some [], none⟩, .goal, []⟩ l1
      = .ok ⟨[], some ⟨m, p, "", []⟩,
             ⟨some ns, some ti, some (String.mk (pyStrip l1)), some [], none⟩, .goal, []⟩ := by
    rw [procLine_content _ l1 (parsePhaseLine_none_of_no_hash hh1)
        (parseTaskLine_none_of_no_hash hh1) hm1g hm1a hm1c]
    simp only [contentStep]
    rw [if_neg (by simp [hs1]), if_neg (by simp [hh1])]
  have hstep5 : procLine ⟨[], some ⟨m, p, "", []⟩,
        ⟨some ns, some ti, some (String.mk (pyStrip l1)), some [], none⟩, .goal, []⟩ l2
      = .ok ⟨[], some ⟨m, p, "", []⟩,
             ⟨some ns, some ti,
              some (String.mk (pyStrip l1) ++ " " ++ String.mk (pyStrip l2)),
              some [], none⟩, .goal, []⟩ := by
    rw [procLine_content _ l2 (parsePhaseLine_none_of_no_hash hh2)
        (parseTaskLine_none_of_no_hash hh2) hm2g hm2a hm2c]
    simp only [contentStep]
    rw [if_neg (by simp [hs2]), if_neg (by simp [hh2])]
  have hloop : parseLoop initSt (splitLines (String.mk (joinLines
        [phaseHeadPre ++ ((Nat.repr m).data ++ ':' :: ' ' :: p.data),
         taskHeadPre ++ (ns.data ++ ':' :: ' ' :: ti.data),
         goalMarker, l1, l2])).data)
      = .ok ⟨[], some ⟨m, p, "", []⟩,
             ⟨some ns, some ti,
              some (String.mk (pyStrip l1) ++ " " ++ String.mk (pyStrip l2)),
              some [], none⟩, .goal, []⟩ := by
    rw [show (String.mk (joinLines
          [phaseHeadPre ++ ((Nat.repr m).data ++ ':' :: ' ' :: p.data),
           taskHeadPre ++ (ns.data ++ ':' :: ' ' :: ti.data),
           goalMarker, l1, l2])).data
        = joinLines
          [phaseHeadPre ++ ((Nat.repr m).data ++ ':' :: ' ' :: p.data),
           taskHeadPre ++ (ns.data ++ ':' :: ' ' :: ti.data),
           goalMarker, l1, l2] from rfl,
        hsplit, parseLoop_step hstep1, parseLoop_step hstep2, parseLoop_step hstep3,
        parseLoop_step hstep4, parseLoop_step hstep5]
    rfl
  refine ⟨?_, rfl⟩
  rw [parse_action_plan_eq_of_loop hloop]
  rfl

theorem multiline_goal_joined_witness :
    parse_action_plan (String.mk (joinLines
        [phaseHeadPre ++ ((Nat.repr 1).data ++ ':' :: ' ' :: ("P" : String).data),
         taskHeadPre ++ (("1.1" : String).data ++ ':' :: ' ' :: ("T" : String).data),
         goalMarker, ("line one").data, ("line two").data]))
      = .ok [⟨1, "P", "",
          [⟨"1.1", "T", String.mk (pyStrip ("line one").data) ++ " "
              ++ String.mk (pyStrip ("line two").data), [], ""⟩]⟩] :=
  (multiline_goal_joined "1.1" "T" 1 "P" ("line one").data ("line two").data
    (by decide) (by decide) (by decide) (by decide) (by decide) (by decide)
    (by decide) (by decide) (by decide) (by decide) (by decide) (by decide)
    (by decide) (by decide) (by decide) (by decide) (by decide) (by decide)).1

/-! ### Claim C3: totality of the parser -/

lemma contentStep_sec (st : St) (l : Line) : (contentStep st l).sec = st.sec := by
  obtain ⟨d, c, ct, sec, its⟩ := st
  obtain ⟨n, t, g, a, cr⟩ := ct
  cases sec <;> cases g <;> cases cr <;>
    simp only [contentStep] <;> split_ifs <;> rfl

lemma contentStep_nil (st : St) (l : Line) (h : st.sec = .nil) :
    contentStep st l = st := by
  rw [contentStep, h]

lemma markerSafeB_mono : ∀ (ls : List Line) (b : Bool),
    markerSafeB false ls = true → markerSafeB b ls = true := by
  intro ls
  induction ls with
  | nil => intro b _; rfl
  | cons l ls ih =>
    intro b h
    rw [markerSafeB] at h ⊢
    split_ifs at h ⊢
    · exact h
    · exact h
    · simp at h
    · exact ih b h

lemma appendPending_ok_of_good (st : St) (hg : GoodSt st)
    (hne : st.ct.nonempty = true) :
    ∃ st1, appendPending st = .ok st1 ∧ st1.done = st.done ∧ st1.ct = st.ct
      ∧ st1.sec = st.sec ∧ st1.items = st.items := by
  rw [appendPending]
  cases hc : st.cur with
  | none => exact ⟨st, rfl, rfl, rfl, rfl, rfl⟩
  | some ph =>
    obtain ⟨hnum, htit⟩ := hg.1 hne
    obtain ⟨n, hn⟩ := Option.isSome_iff_exists.mp hnum
    obtain ⟨t, ht⟩ := Option.isSome_iff_exists.mp htit
    rw [hn, ht]
    exact ⟨_, rfl, rfl, rfl, rfl, rfl⟩

lemma parseLoop_total : ∀ (ls : List Line) (st : St),
    GoodSt st → markerSafeB (pendingFlag st) ls = true →
    ∃ st2, parseLoop st ls = .ok st2 ∧ GoodSt st2 := by
  intro ls
  induction ls with
  | nil => intro st hg _; exact ⟨st, rfl, hg⟩
  | cons l ls ih =>
    intro st hg hsafe
    rw [markerSafeB] at hsafe
    by_cases hpl : isPhaseLineB l = true
    · rw [if_pos hpl] at hsafe
      obtain ⟨v, hp⟩ : ∃ v, parsePhaseLine l = some v := by
        rw [isPhaseLineB] at hpl
        exact Option.isSome_iff_exists.mp hpl
      obtain ⟨n, ti⟩ := v
      by_cases hgd : (st.ct.nonempty && st.cur.isSome) = true
      · obtain ⟨st1, ha, hd1, hct1, hsec1, hit1⟩ := appendPending_ok_of_good st hg
          (Bool.and_eq_true_iff.mp hgd).1
        have hstep : procLine st l = .ok ⟨st1.done ++ st1.cur.toList,
            some ⟨n, ti, "", []⟩, TaskAcc.empty, .nil, []⟩ := by
          rw [procLine]
          simp only [hp]
          rw [if_pos hgd, ha]
          rfl
        obtain ⟨st2, hl2, hg2⟩ := ih ⟨st1.done ++ st1.cur.toList,
            some ⟨n, ti, "", []⟩, TaskAcc.empty, .nil, []⟩
          ⟨fun h => by simp [TaskAcc.nonempty, TaskAcc.empty] at h,
           fun h => absurd rfl h⟩ hsafe
        exact ⟨st2, by rw [parseLoop_step hstep]; exact hl2, hg2⟩
      · have hstep : procLine st l = .ok ⟨st.done ++ st.cur.toList,
            some ⟨n, ti, "", []⟩, st.ct, .nil, st.items⟩ := by
          rw [procLine]
          simp only [hp]
          rw [if_neg hgd]
        obtain ⟨st2, hl2, hg2⟩ := ih ⟨st.done ++ st.cur.toList,
            some ⟨n, ti, "", []⟩, st.ct, .nil, st.items⟩
          ⟨fun h => hg.1 h, fun h => absurd rfl h⟩
          (markerSafeB_mono ls _ hsafe)
        exact ⟨st2, by rw [parseLoop_step hstep]; exact hl2, hg2⟩
    · rw [if_neg hpl] at hsafe
      have hp : parsePhaseLine l = none := by
        rw [isPhaseLineB] at hpl
        exact Option.not_isSome_iff_eq_none.mp hpl
      by_cases htl : isTaskLineB l = true
      · rw [if_pos htl] at hsafe
        obtain ⟨v, ht⟩ : ∃ v, parseTaskLine l = some v := by
          rw [isTaskLineB] at htl
          exact Option.isSome_iff_exists.mp htl
        obtain ⟨ns, ti⟩ := v
        by_cases hgd : (st.ct.nonempty && st.cur.isSome) = true
        · obtain ⟨st1, ha, hd1, hct1, hsec1, hit1⟩ := appendPending_ok_of_good st hg
            (Bool.and_eq_true_iff.mp hgd).1
          have hstep : procLine st l = .ok ⟨st1.done, st1.cur,
              ⟨some ns, some ti, none, some [], none⟩, .nil, []⟩ := by
            rw [procLine]
            simp only [hp, ht]
            rw [if_pos hgd, ha]
          obtain ⟨st2, hl2, hg2⟩ := ih ⟨st1.done, st1.cur,
              ⟨some ns, some ti, none, some [], none⟩, .nil, []⟩
            ⟨fun _ => ⟨rfl, rfl⟩, fun _ => ⟨rfl, rfl⟩⟩ hsafe
          exact ⟨st2, by rw [parseLoop_step hstep]; exact hl2, hg2⟩
        · have hstep : procLine st l = .ok ⟨st.done, st.cur,
              ⟨some ns, some ti, none, some [], none⟩, .nil, []⟩ := by
            rw [procLine]
            simp only [hp, ht]
            rw [if_neg hgd]
          obtain ⟨st2, hl2, hg2⟩ := ih ⟨st.done, st.cur,
              ⟨some ns, some ti, none, some [], none⟩, .nil, []⟩
            ⟨fun _ => ⟨rfl, rfl⟩, fun _ => ⟨rfl, rfl⟩⟩ hsafe
          exact ⟨st2, by rw [parseLoop_step hstep]; exact hl2, hg2⟩
      · rw [if_neg htl] at hsafe
        have ht : parseTaskLine l = none := by
          rw [isTaskLineB] at htl
          exact Option.not_isSome_iff_eq_none.mp htl
        by_cases hm : isMarkerB l = true
        · rw [if_pos hm] at hsafe
          obtain ⟨hflag, hsafe2⟩ := Bool.and_eq_true_iff.mp hsafe
          obtain ⟨hnum, htit⟩ := Bool.and_eq_true_iff.mp hflag
          by_cases hmg : goalMarker.isPrefixOf l = true
          · set A := (if (pyStrip (pyRemoveAll goalMarker l)).isEmpty then st.ct
                else { st.ct with
                       goal := some (String.mk (pyStrip (pyRemoveAll goalMarker l))) }) with hA
            have hstep : procLine st l = .ok ⟨st.done, st.cur, A, .goal, st.items⟩ := by
              rw [procLine]
              simp only [hp, ht]
              rw [if_pos hmg, hA]
            have hnum2 : A.num = st.ct.num := by rw [hA]; split_ifs <;> rfl
            have htit2 : A.title = st.ct.title := by rw [hA]; split_ifs <;> rfl
            obtain ⟨st2, hl2, hg2⟩ := ih ⟨st.done, st.cur, A, .goal, st.items⟩
              ⟨fun _ => ⟨by rw [hnum2]; exact hnum, by rw [htit2]; exact htit⟩,
               fun _ => ⟨by rw [hnum2]; exact hnum, by rw [htit2]; exact htit⟩⟩
              (by
                show markerSafeB (A.num.isSome && A.title.isSome) ls = true
                rw [hnum2, htit2, hnum, htit]
                exact hsafe2)
            exact ⟨st2, by rw [parseLoop_step hstep]; exact hl2, hg2⟩
          · by_cases hma : actionsMarker.isPrefixOf l = true
            · have hstep : procLine st l
                  = .ok ⟨st.done, st.cur, st.ct, .actions, []⟩ := by
                rw [procLine]
                simp only [hp, ht]
                rw [if_neg (by simp [hmg]), if_pos hma]
              obtain ⟨st2, hl2, hg2⟩ := ih ⟨st.done, st.cur, st.ct, .actions, []⟩
                ⟨fun _ => ⟨hnum, htit⟩, fun _ => ⟨hnum, htit⟩⟩
                (by
                  rw [show pendingFlag ⟨st.done, st.cur, st.ct, .actions, []⟩
                    = (st.ct.num.isSome && st.ct.title.isSome) from rfl, hnum, htit]
                  exact hsafe2)
              exact ⟨st2, by rw [parseLoop_step hstep]; exact hl2, hg2⟩
            · have hmc : criteriaMarker.isPrefixOf l = true := by
                rw [isMarkerB] at hm
                rcases Bool.or_eq_true_iff.mp hm with h9 | h9
                · rcases Bool.or_eq_true_iff.mp h9 with h8 | h8
                  · exact absurd h8 hmg
                  · exact absurd h8 hma
                · exact h9
              set B := (if (pyStrip (pyRemoveAll criteriaMarker l)).isEmpty then st.ct
                  else { st.ct with
                         crit := some (String.mk (pyStrip (pyRemoveAll criteriaMarker l))) }) with hB
              have hstep : procLine st l
                  = .ok ⟨st.done, st.cur, B, .crit, st.items⟩ := by
                rw [procLine]
                simp only [hp, ht]
                rw [if_neg (by simp [hmg]), if_neg (by simp [hma]), if_pos hmc, hB]
              have hnum2 : B.num = st.ct.num := by rw [hB]; split_ifs <;> rfl
              have htit2 : B.title = st.ct.title := by rw [hB]; split_ifs <;> rfl
              obtain ⟨st2, hl2, hg2⟩ := ih ⟨st.done, st.cur, B, .crit, st.items⟩
                ⟨fun _ => ⟨by rw [hnum2]; exact hnum, by rw [htit2]; exact htit⟩,
                 fun _ => ⟨by rw [hnum2]; exact hnum, by rw [htit2]; exact htit⟩⟩
                (by
                  show markerSafeB (B.num.isSome && B.title.isSome) ls = true
                  rw [hnum2, htit2, hnum, htit]
                  exact hsafe2)
              exact ⟨st2, by rw [parseLoop_step hstep]; exact hl2, hg2⟩
        · rw [if_neg hm] at hsafe
          have hmg : goalMarker.isPrefixOf l = false := by
            rw [isMarkerB] at hm
            simp only [Bool.or_eq_true_iff] at hm
            push_neg at hm
            exact Bool.eq_false_iff.mpr hm.1.1
          have hma : actionsMarker.isPrefixOf l = false := by
            rw [isMarkerB] at hm
            simp only [Bool.or_eq_true_iff] at hm
            push_neg at hm
            exact Bool.eq_false_iff.mpr hm.1.2
          have hmc : criteriaMarker.isPrefixOf l = false := by
            rw [isMarkerB] at hm
            simp only [Bool.or_eq_true_iff] at hm
            push_neg at hm
            exact Bool.eq_false_iff.mpr hm.2
          have hstep := procLine_content st l hp ht hmg hma hmc
          by_cases hsec : st.sec = .nil
          · rw [contentStep_nil st l hsec] at hstep
            obtain ⟨st2, hl2, hg2⟩ := ih st hg hsafe
            exact ⟨st2, by rw [parseLoop_step hstep]; exact hl2, hg2⟩
          · obtain ⟨hnum, htit⟩ := hg.2 hsec
            obtain ⟨st2, hl2, hg2⟩ := ih (contentStep st l)
              ⟨fun _ => ⟨by rw [contentStep_ct_num]; exact hnum,
                         by rw [contentStep_ct_title]; exact htit⟩,
               fun _ => ⟨by rw [contentStep_ct_num]; exact hnum,
                         by rw [contentStep_ct_title]; exact htit⟩⟩
              (by
                rw [show pendingFlag (contentStep st l)
                  = ((contentStep st l).ct.num.isSome
                      && (contentStep st l).ct.title.isSome) from rfl,
                  contentStep_ct_num, contentStep_ct_title]
                exact hsafe)
            exact ⟨st2, by rw [parseLoop_step hstep]; exact hl2, hg2⟩

/-- C3 counterexample: `parse_action_plan` is not total — a `**Goal**:`
line with non-empty remainder after a Phase heading but before any Task
heading makes the pending-task dict non-empty without a `number` key, and
the next flush raises `KeyError: 'number'`. -/
theorem parser_totality_counterexample :
    parse_action_plan "## Phase 1: P\n**Goal**: g\n## Phase 2: Q"
      = .error "KeyError: 'number'" := rfl

/-- C3 (amended): `parse_action_plan` returns a phase list without raising
for every input in which each field-marker line (`**Goal**:`,
`**Actions**:`, `**Success Criteria**:`) occurs only while a task heading
is pending (after a Task heading with no intervening Phase heading). -/
theorem parser_totality (text : String)
    (hsafe : markerSafeB false (docLines text) = true) :
    ∃ ps, parse_action_plan text = .ok ps := by
  obtain ⟨st2, hl, hg2⟩ := parseLoop_total (docLines text) initSt
    ⟨fun h => by simp [initSt, TaskAcc.empty, TaskAcc.nonempty] at h,
     fun h => absurd rfl h⟩ hsafe
  rw [parse_action_plan_eq_of_loop hl, finishParse_eq]
  by_cases hgd : (st2.ct.nonempty && st2.cur.isSome) = true
  · rw [if_pos hgd]
    obtain ⟨st3, ha, _⟩ := appendPending_ok_of_good st2 hg2
      (Bool.and_eq_true_iff.mp hgd).1
    rw [ha]
    exact ⟨_, rfl⟩
  · rw [if_neg hgd]
    exact ⟨_, rfl⟩

theorem parser_totality_witness :
    ∃ ps, parse_action_plan "## Phase 1: P\n### Task 1.1: T\n**Goal**: g" = .ok ps :=
  parser_totality "## Phase 1: P\n### Task 1.1: T\n**Goal**: g" (by decide)

/-! ### Claim C2: phase/task directory counts -/

lemma TaskAcc.nonempty_of_num {a : TaskAcc} (h : a.num.isSome = true) :
    a.nonempty = true := by
  simp [TaskAcc.nonempty, h]

lemma appendPending_ok_cur (st : St) (ph : Phase) (hc : st.cur = some ph)
    (hnum : st.ct.num.isSome = true) (htit : st.ct.title.isSome = true) :
    ∃ tk, appendPending st
      = .ok { st with cur := some { ph with tasks := ph.tasks ++ [tk] } } := by
  obtain ⟨n, hn⟩ := Option.isSome_iff_exists.mp hnum
  obtain ⟨t, ht⟩ := Option.isSome_iff_exists.mp htit
  refine ⟨st.ct.emit n t, ?_⟩
  rw [appendPending, hc, hn, ht]

lemma phaseCountsOf_append (a b : List Phase) :
    phaseCountsOf (a ++ b) = phaseCountsOf a ++ phaseCountsOf b := by
  simp [phaseCountsOf]

lemma finishCounts_none {st : St} (h : st.cur = none) :
    finishCounts st = phaseCountsOf st.done := by
  simp [finishCounts, h]

lemma finishCounts_some {st : St} {ph : Phase} (h : st.cur = some ph) :
    finishCounts st
      = phaseCountsOf st.done ++ [(ph.number, ph.tasks.length + pendN st)] := by
  simp [finishCounts, h]

lemma tasksUntilPhase_nil : tasksUntilPhase [] = 0 := rfl

lemma tasksUntilPhase_phase {l : Line} (ls : List Line)
    (h : isPhaseLineB l = true) : tasksUntilPhase (l :: ls) = 0 := by
  rw [tasksUntilPhase, List.takeWhile_cons]
  rw [h]
  rfl

lemma tasksUntilPhase_cons_nonphase {l : Line} (ls : List Line)
    (h : isPhaseLineB l = false) :
    tasksUntilPhase (l :: ls)
      = (if isTaskLineB l then 1 else 0) + tasksUntilPhase ls := by
  rw [tasksUntilPhase, List.takeWhile_cons, h]
  show ((l :: _).countP _) = _
  rw [List.countP_cons]
  rw [tasksUntilPhase]
  omega

lemma specPhaseCounts_cons_phase {l : Line} {n : Nat} {ti : String}
    (ls : List Line) (h : parsePhaseLine l = some (n, ti)) :
    specPhaseCounts (l :: ls) = (n, tasksUntilPhase ls) :: specPhaseCounts ls := by
  rw [specPhaseCounts, h]

lemma specPhaseCounts_cons_none {l : Line} (ls : List Line)
    (h : parsePhaseLine l = none) :
    specPhaseCounts (l :: ls) = specPhaseCounts ls := by
  rw [specPhaseCounts, h]

lemma specPhaseCounts_length : ∀ ls : List Line,
    (specPhaseCounts ls).length = ls.countP isPhaseLineB := by
  intro ls
  induction ls with
  | nil => rfl
  | cons l ls ih =>
    rw [List.countP_cons]
    cases hp : parsePhaseLine l with
    | none =>
      rw [specPhaseCounts_cons_none ls hp, ih]
      have : isPhaseLineB l = false := by rw [isPhaseLineB, hp]; rfl
      rw [this]
      rfl
    | some v =>
      obtain ⟨n, ti⟩ := v
      rw [specPhaseCounts_cons_phase ls hp, List.length_cons, ih]
      have : isPhaseLineB l = true := by rw [isPhaseLineB, hp]; rfl
      rw [this]
      rfl

lemma parseLoop_counts : ∀ (ls : List Line) (st : St),
    GoodSt st → markerSafeB (pendingFlag st) ls = true →
    (st.cur = none → st.ct.nonempty = false ∧
      ((ls.takeWhile (fun l => !isPhaseLineB l)).all (fun l => !isTaskLineB l)) = true) →
    ∃ st2, parseLoop st ls = .ok st2 ∧ GoodSt st2
      ∧ (st.cur = none →
          finishCounts st2 = phaseCountsOf st.done ++ specPhaseCounts ls)
      ∧ (∀ ph, st.cur = some ph →
          finishCounts st2 = phaseCountsOf st.done
            ++ (ph.number, ph.tasks.length + pendN st + tasksUntilPhase ls)
              :: specPhaseCounts ls) := by
  intro ls
  induction ls with
  | nil =>
    intro st hg _ _
    refine ⟨st, rfl, hg, ?_, ?_⟩
    · intro hc
      rw [finishCounts_none hc]
      simp [specPhaseCounts]
    · intro ph hc
      rw [finishCounts_some hc, tasksUntilPhase_nil]
      simp [specPhaseCounts]
  | cons l ls ih =>
    intro st hg hsafe hC
    rw [markerSafeB] at hsafe
    by_cases hpl : isPhaseLineB l = true
    · rw [if_pos hpl] at hsafe
      obtain ⟨v, hp⟩ : ∃ v, parsePhaseLine l = some v := by
        rw [isPhaseLineB] at hpl
        exact Option.isSome_iff_exists.mp hpl
      obtain ⟨n, ti⟩ := v
      by_cases hgd : (st.ct.nonempty && st.cur.isSome) = true
      · obtain ⟨hne, hcs⟩ := Bool.and_eq_true_iff.mp hgd
        obtain ⟨ph, hc⟩ := Option.isSome_iff_exists.mp hcs
        obtain ⟨hnum, htit⟩ := hg.1 hne
        obtain ⟨tk, ha⟩ := appendPending_ok_cur st ph hc hnum htit
        have hstep : procLine st l
            = .ok ⟨st.done ++ [{ ph with tasks := ph.tasks ++ [tk] }],
                   some ⟨n, ti, "", []⟩, TaskAcc.empty, .nil, []⟩ := by
          rw [procLine]
          simp only [hp]
          rw [if_pos hgd, ha]
          rfl
        obtain ⟨st2, hl2, hg2, _, hsome2⟩ :=
          ih ⟨st.done ++ [{ ph with tasks := ph.tasks ++ [tk] }],
              some ⟨n, ti, "", []⟩, TaskAcc.empty, .nil, []⟩
            ⟨fun h => by simp [TaskAcc.nonempty, TaskAcc.empty] at h,
             fun h => absurd rfl h⟩ hsafe
            (fun h => by simp at h)
        have hfin := hsome2 ⟨n, ti, "", []⟩ rfl
        have hps : pendN st = 1 := by rw [pendN, if_pos hgd]
        have hpz : pendN (⟨st.done ++ [{ ph with tasks := ph.tasks ++ [tk] }],
            some ⟨n, ti, "", []⟩, TaskAcc.empty, .nil, []⟩ : St) = 0 := rfl
        refine ⟨st2, by rw [parseLoop_step hstep]; exact hl2, hg2, ?_, ?_⟩
        · intro h
          rw [h] at hc
          exact Option.noConfusion hc
        · intro ph0 hph0
          rw [hc] at hph0
          injection hph0 with e
          subst e
          rw [hfin, hpz, hps, specPhaseCounts_cons_phase ls hp,
              tasksUntilPhase_phase ls hpl, phaseCountsOf_append]
          simp [phaseCountsOf]
      · have hps : pendN st = 0 := by rw [pendN, if_neg hgd]
        have hne : st.ct.nonempty = false := by
          cases hcu : st.cur with
          | none => exact (hC hcu).1
          | some ph =>
            by_contra hx
            rw [Bool.not_eq_false] at hx
            exact hgd (by rw [hx, hcu]; rfl)
        have hstep : procLine st l = .ok ⟨st.done ++ st.cur.toList,
            some ⟨n, ti, "", []⟩, st.ct, .nil, st.items⟩ := by
          rw [procLine]
          simp only [hp]
          rw [if_neg hgd]
        obtain ⟨st2, hl2, hg2, _, hsome2⟩ :=
          ih ⟨st.done ++ st.cur.toList,
              some ⟨n, ti, "", []⟩, st.ct, .nil, st.items⟩
            ⟨fun h => hg.1 h, fun h => absurd rfl h⟩
            (markerSafeB_mono ls _ hsafe)
            (fun h => by simp at h)
        have hfin := hsome2 ⟨n, ti, "", []⟩ rfl
        have hpz : pendN (⟨st.done ++ st.cur.toList,
            some ⟨n, ti, "", []⟩, st.ct, .nil, st.items⟩ : St) = 0 := by
          show (if st.ct.nonempty && true then 1 else 0) = 0
          rw [hne]
          rfl
        refine ⟨st2, by rw [parseLoop_step hstep]; exact hl2, hg2, ?_, ?_⟩
        · intro hcu
          rw [hfin, hpz, specPhaseCounts_cons_phase ls hp]
          simp [hcu, phaseCountsOf_append]
        · intro ph0 hph0
          rw [hfin, hpz, hps, specPhaseCounts_cons_phase ls hp,
              tasksUntilPhase_phase ls hpl]
          simp [hph0, phaseCountsOf_append, phaseCountsOf]
    · rw [if_neg hpl] at hsafe
      have hplf : isPhaseLineB l = false := Bool.eq_false_iff.mpr hpl
      have hp : parsePhaseLine l = none := by
        rw [isPhaseLineB] at hpl
        exact Option.not_isSome_iff_eq_none.mp hpl
      by_cases htl : isTaskLineB l = true
      · rw [if_pos htl] at hsafe
        obtain ⟨v, ht⟩ : ∃ v, parseTaskLine l = some v := by
          rw [isTaskLineB] at htl
          exact Option.isSome_iff_exists.mp htl
        obtain ⟨ns, ti⟩ := v
        have hcs : ∃ ph, st.cur = some ph := by
          cases hcu : st.cur with
          | some ph => exact ⟨ph, rfl⟩
          | none =>
            obtain ⟨_, hall⟩ := hC hcu
            simp [List.takeWhile_cons, hplf, htl] at hall
        obtain ⟨ph, hc⟩ := hcs
        by_cases hgd : (st.ct.nonempty && st.cur.isSome) = true
        · obtain ⟨hne, _⟩ := Bool.and_eq_true_iff.mp hgd
          obtain ⟨hnum, htit⟩ := hg.1 hne
          obtain ⟨tk, ha⟩ := appendPending_ok_cur st ph hc hnum htit
          have hstep : procLine st l
              = .ok ⟨st.done, some { ph with tasks := ph.tasks ++ [tk] },
                     ⟨some ns, some ti, none, some [], none⟩, .nil, []⟩ := by
            rw [procLine]
            simp only [hp, ht]
            rw [if_pos hgd, ha]
          obtain ⟨st2, hl2, hg2, _, hsome2⟩ :=
            ih ⟨st.done, some { ph with tasks := ph.tasks ++ [tk] },
                ⟨some ns, some ti, none, some [], none⟩, .nil, []⟩
              ⟨fun _ => ⟨rfl, rfl⟩, fun _ => ⟨rfl, rfl⟩⟩ hsafe
              (fun h => by simp at h)
          have hfin := hsome2 { ph with tasks := ph.tasks ++ [tk] } rfl
          have hps : pendN st = 1 := by rw [pendN, if_pos hgd]
          have hpo : pendN (⟨st.done, some { ph with tasks := ph.tasks ++ [tk] },
              ⟨some ns, some ti, none, some [], none⟩, .nil, []⟩ : St) = 1 := rfl
          refine ⟨st2, by rw [parseLoop_step hstep]; exact hl2, hg2, ?_, ?_⟩
          · intro h
            rw [h] at hc
            exact Option.noConfusion hc
          · intro ph0 hph0
            rw [hc] at hph0
            injection hph0 with e
            subst e
            rw [hfin, hpo, hps, specPhaseCounts_cons_none ls hp,
                tasksUntilPhase_cons_nonphase ls hplf, htl]
            simp [Nat.add_assoc]
            omega
        · have hne : st.ct.nonempty = false := by
            by_contra hx
            rw [Bool.not_eq_false] at hx
            exact hgd (by rw [hx, hc]; rfl)
          have hps : pendN st = 0 := by rw [pendN, if_neg hgd]
          have hstep : procLine st l = .ok ⟨st.done, st.cur,
              ⟨some ns, some ti, none, some [], none⟩, .nil, []⟩ := by
            rw [procLine]
            simp only [hp, ht]
            rw [if_neg hgd]
          obtain ⟨st2, hl2, hg2, _, hsome2⟩ :=
            ih ⟨st.done, st.cur,
                ⟨some ns, some ti, none, some [], none⟩, .nil, []⟩
              ⟨fun _ => ⟨rfl, rfl⟩, fun _ => ⟨rfl, rfl⟩⟩ hsafe
              (fun h => by rw [show (⟨st.done, st.cur,
                  ⟨some ns, some ti, none, some [], none⟩, .nil, []⟩ : St).cur
                    = st.cur from rfl, hc] at h; exact Option.noConfusion h)
          have hfin := hsome2 ph hc
          have hpo : pendN (⟨st.done, st.cur,
              ⟨some ns, some ti, none, some [], none⟩, .nil, []⟩ : St) = 1 := by
            show (if (⟨some ns, some ti, none, some [], none⟩ : TaskAcc).nonempty
                && st.cur.isSome then 1 else 0) = 1
            rw [hc]
            rfl
          refine ⟨st2, by rw [parseLoop_step hstep]; exact hl2, hg2, ?_, ?_⟩
          · intro h
            rw [h] at hc
            exact Option.noConfusion hc
          · intro ph0 hph0
            rw [hc] at hph0
            injection hph0 with e
            subst e
            rw [hfin, hpo, hps, specPhaseCounts_cons_none ls hp,
                tasksUntilPhase_cons_nonphase ls hplf, htl]
            simp [Nat.add_assoc]
      · rw [if_neg htl] at hsafe
        have htlf : isTaskLineB l = false := Bool.eq_false_iff.mpr htl
        have ht : parseTaskLine l = none := by
          rw [isTaskLineB] at htl
          exact Option.not_isSome_iff_eq_none.mp htl
        by_cases hm : isMarkerB l = true
        · rw [if_pos hm] at hsafe
          obtain ⟨hflag, hsafe2⟩ := Bool.and_eq_true_iff.mp hsafe
          obtain ⟨hnum, htit⟩ := Bool.and_eq_true_iff.mp hflag
          have hcs : ∃ ph, st.cur = some ph := by
            cases hcu : st.cur with
            | some ph => exact ⟨ph, rfl⟩
            | none =>
              have h1 := TaskAcc.nonempty_of_num hnum
              rw [(hC hcu).1] at h1
              exact Bool.noConfusion h1
          obtain ⟨ph, hc⟩ := hcs
          have hsn : st.ct.nonempty = true := TaskAcc.nonempty_of_num hnum
          by_cases hmg : goalMarker.isPrefixOf l = true
          · set A := (if (pyStrip (pyRemoveAll goalMarker l)).isEmpty then st.ct
                else { st.ct with
                       goal := some (String.mk (pyStrip (pyRemoveAll goalMarker l))) }) with hA
            have hstep : procLine st l = .ok ⟨st.done, st.cur, A, .goal, st.items⟩ := by
              rw [procLine]
              simp only [hp, ht]
              rw [if_pos hmg, hA]
            have hnum2 : A.num = st.ct.num := by rw [hA]; split_ifs <;> rfl
            have htit2 : A.title = st.ct.title := by rw [hA]; split_ifs <;> rfl
            obtain ⟨st2, hl2, hg2, _, hsome2⟩ :=
              ih ⟨st.done, st.cur, A, .goal, st.items⟩
                ⟨fun _ => ⟨by rw [hnum2]; exact hnum, by rw [htit2]; exact htit⟩,
                 fun _ => ⟨by rw [hnum2]; exact hnum, by rw [htit2]; exact htit⟩⟩
                (by
                  show markerSafeB (A.num.isSome && A.title.isSome) ls = true
                  rw [hnum2, htit2, hnum, htit]
                  exact hsafe2)
                (fun h => by rw [show (⟨st.done, st.cur, A, .goal, st.items⟩ : St).cur
                    = st.cur from rfl, hc] at h; exact Option.noConfusion h)
            have hfin := hsome2 ph hc
            have hpend : pendN (⟨st.done, st.cur, A, .goal, st.items⟩ : St) = pendN st := by
              have h1 : A.nonempty = true :=
                TaskAcc.nonempty_of_num (by rw [hnum2]; exact hnum)
              show (if A.nonempty && st.cur.isSome then 1 else 0)
                  = (if st.ct.nonempty && st.cur.isSome then 1 else 0)
              rw [h1, hsn]
            refine ⟨st2, by rw [parseLoop_step hstep]; exact hl2, hg2, ?_, ?_⟩
            · intro h
              rw [h] at hc
              exact Option.noConfusion hc
            · intro ph0 hph0
              rw [hc] at hph0
              injection hph0 with e
              subst e
              rw [hfin, hpend, specPhaseCounts_cons_none ls hp,
                  tasksUntilPhase_cons_nonphase ls hplf, htlf]
              simp
          · by_cases hma : actionsMarker.isPrefixOf l = true
            · have hstep : procLine st l
                  = .ok ⟨st.done, st.cur, st.ct, .actions, []⟩ := by
                rw [procLine]
                simp only [hp, ht]
                rw [if_neg (by simp [hmg]), if_pos hma]
              obtain ⟨st2, hl2, hg2, _, hsome2⟩ :=
                ih ⟨st.done, st.cur, st.ct, .actions, []⟩
                  ⟨fun _ => ⟨hnum, htit⟩, fun _ => ⟨hnum, htit⟩⟩
                  (by
                    show markerSafeB (st.ct.num.isSome && st.ct.title.isSome) ls = true
                    rw [hnum, htit]
                    exact hsafe2)
                  (fun h => by rw [show (⟨st.done, st.cur, st.ct, .actions, []⟩ : St).cur
                      = st.cur from rfl, hc] at h; exact Option.noConfusion h)
              have hfin := hsome2 ph hc
              have hpend : pendN (⟨st.done, st.cur, st.ct, .actions, []⟩ : St)
                  = pendN st := rfl
              refine ⟨st2, by rw [parseLoop_step hstep]; exact hl2, hg2, ?_, ?_⟩
              · intro h
                rw [h] at hc
                exact Option.noConfusion hc
              · intro ph0 hph0
                rw [hc] at hph0
                injection hph0 with e
                subst e
                rw [hfin, hpend, specPhaseCounts_cons_none ls hp,
                    tasksUntilPhase_cons_nonphase ls hplf, htlf]
                simp
            · have hmc : criteriaMarker.isPrefixOf l = true := by
                rw [isMarkerB] at hm
                rcases Bool.or_eq_true_iff.mp hm with h9 | h9
                · rcases Bool.or_eq_true_iff.mp h9 with h8 | h8
                  · exact absurd h8 hmg
                  · exact absurd h8 hma
                · exact h9
              set B := (if (pyStrip (pyRemoveAll criteriaMarker l)).isEmpty then st.ct
                  else { st.ct with
                         crit := some (String.mk (pyStrip (pyRemoveAll criteriaMarker l))) }) with hB
              have hstep : procLine st l
                  = .ok ⟨st.done, st.cur, B, .crit, st.items⟩ := by
                rw [procLine]
                simp only [hp, ht]
                rw [if_neg (by simp [hmg]), if_neg (by simp [hma]), if_pos hmc, hB]
              have hnum2 : B.num = st.ct.num := by rw [hB]; split_ifs <;> rfl
              have htit2 : B.title = st.ct.title := by rw [hB]; split_ifs <;> rfl
              obtain ⟨st2, hl2, hg2, _, hsome2⟩ :=
                ih ⟨st.done, st.cur, B, .crit, st.items⟩
                  ⟨fun _ => ⟨by rw [hnum2]; exact hnum, by rw [htit2]; exact htit⟩,
                   fun _ => ⟨by rw [hnum2]; exact hnum, by rw [htit2]; exact htit⟩⟩
                  (by
                    show markerSafeB (B.num.isSome && B.title.isSome) ls = true
                    rw [hnum2, htit2, hnum, htit]
                    exact hsafe2)
                  (fun h => by rw [show (⟨st.done, st.cur, B, .crit, st.items⟩ : St).cur
                      = st.cur from rfl, hc] at h; exact Option.noConfusion h)
              have hfin := hsome2 ph hc
              have hpend : pendN (⟨st.done, st.cur, B, .crit, st.items⟩ : St) = pendN st := by
                have h1 : B.nonempty = true :=
                  TaskAcc.nonempty_of_num (by rw [hnum2]; exact hnum)
                show (if B.nonempty && st.cur.isSome then 1 else 0)
                    = (if st.ct.nonempty && st.cur.isSome then 1 else 0)
                rw [h1, hsn]
              refine ⟨st2, by rw [parseLoop_step hstep]; exact hl2, hg2, ?_, ?_⟩
              · intro h
                rw [h] at hc
                exact Option.noConfusion hc
              · intro ph0 hph0
                rw [hc] at hph0
                injection hph0 with e
                subst e
                rw [hfin, hpend, specPhaseCounts_cons_none ls hp,
                    tasksUntilPhase_cons_nonphase ls hplf, htlf]
                simp
        · rw [if_neg hm] at hsafe
          have hmg : goalMarker.isPrefixOf l = false := by
            rw [isMarkerB] at hm
            simp only [Bool.or_eq_true_iff] at hm
            push_neg at hm
            exact Bool.eq_false_iff.mpr hm.1.1
          have hma : actionsMarker.isPrefixOf l = false := by
            rw [isMarkerB] at hm
            simp only [Bool.or_eq_true_iff] at hm
            push_neg at hm
            exact Bool.eq_false_iff.mpr hm.1.2
          have hmc : criteriaMarker.isPrefixOf l = false := by
            rw [isMarkerB] at hm
            simp only [Bool.or_eq_true_iff] at hm
            push_neg at hm
            exact Bool.eq_false_iff.mpr hm.2
          have hstep := procLine_content st l hp ht hmg hma hmc
          by_cases hsec : st.sec = .nil
          · rw [contentStep_nil st l hsec] at hstep
            obtain ⟨st2, hl2, hg2, hnone2, hsome2⟩ := ih st hg hsafe
              (fun hcu => by
                obtain ⟨h1, h2⟩ := hC hcu
                refine ⟨h1, ?_⟩
                simp only [List.takeWhile_cons, hplf, Bool.not_false, if_true,
                  List.all_cons, Bool.and_eq_true] at h2
                exact h2.2)
            refine ⟨st2, by rw [parseLoop_step hstep]; exact hl2, hg2, ?_, ?_⟩
            · intro hcu
              rw [hnone2 hcu, specPhaseCounts_cons_none ls hp]
            · intro ph0 hph0
              rw [hsome2 ph0 hph0, specPhaseCounts_cons_none ls hp,
                  tasksUntilPhase_cons_nonphase ls hplf, htlf]
              simp
          · obtain ⟨hnum, htit⟩ := hg.2 hsec
            have hcs : ∃ ph, st.cur = some ph := by
              cases hcu : st.cur with
              | some ph => exact ⟨ph, rfl⟩
              | none =>
                have h1 := TaskAcc.nonempty_of_num hnum
                rw [(hC hcu).1] at h1
                exact Bool.noConfusion h1
            obtain ⟨ph, hc⟩ := hcs
            obtain ⟨st2, hl2, hg2, _, hsome2⟩ := ih (contentStep st l)
              ⟨fun _ => ⟨by rw [contentStep_ct_num]; exact hnum,
                         by rw [contentStep_ct_title]; exact htit⟩,
               fun _ => ⟨by rw [contentStep_ct_num]; exact hnum,
                         by rw [contentStep_ct_title]; exact htit⟩⟩
              (by
                show markerSafeB ((contentStep st l).ct.num.isSome
                    && (contentStep st l).ct.title.isSome) ls = true
                rw [contentStep_ct_num, contentStep_ct_title]
                exact hsafe)
              (fun h => by rw [contentStep_cur, hc] at h; exact Option.noConfusion h)
            have hfin := hsome2 ph (by rw [contentStep_cur]; exact hc)
            have hpend : pendN (contentStep st l) = pendN st := by
              have h1 : (contentStep st l).ct.nonempty = true :=
                TaskAcc.nonempty_of_num (by rw [contentStep_ct_num]; exact hnum)
              have h2 : st.ct.nonempty = true := TaskAcc.nonempty_of_num hnum
              rw [pendN, pendN, h1, h2, contentStep_cur]
            refine ⟨st2, by rw [parseLoop_step hstep]; exact hl2, hg2, ?_, ?_⟩
            · intro h
              rw [h] at hc
              exact Option.noConfusion hc
            · intro ph0 hph0
              rw [hc] at hph0
              injection hph0 with e
              subst e
              rw [hfin, contentStep_done, hpend, specPhaseCounts_cons_none ls hp,
                  tasksUntilPhase_cons_nonphase ls hplf, htlf]
              simp

lemma finishParse_counts (st : St) (hg : GoodSt st) :
    ∃ ps, finishParse st = .ok ps ∧ phaseCountsOf ps = finishCounts st := by
  rw [finishParse_eq]
  by_cases hgd : (st.ct.nonempty && st.cur.isSome) = true
  · obtain ⟨hne, hcs⟩ := Bool.and_eq_true_iff.mp hgd
    obtain ⟨ph, hc⟩ := Option.isSome_iff_exists.mp hcs
    obtain ⟨hnum, htit⟩ := hg.1 hne
    obtain ⟨tk, ha⟩ := appendPending_ok_cur st ph hc hnum htit
    rw [if_pos hgd, ha]
    refine ⟨_, rfl, ?_⟩
    rw [finishCounts_some hc]
    have hps : pendN st = 1 := by rw [pendN, if_pos hgd]
    rw [hps]
    show phaseCountsOf (st.done ++ [{ ph with tasks := ph.tasks ++ [tk] }]) = _
    rw [phaseCountsOf_append]
    simp [phaseCountsOf]
  · rw [if_neg hgd]
    refine ⟨_, rfl, ?_⟩
    have hps : pendN st = 0 := by rw [pendN, if_neg hgd]
    cases hc : st.cur with
    | none =>
      rw [finishCounts_none hc]
      simp [hc, phaseCountsOf_append]
    | some ph =>
      rw [finishCounts_some hc, hps, phaseCountsOf_append]
      simp [hc, phaseCountsOf]

lemma isPrefixOf_append_self_str (a b : List String) : a.isPrefixOf (a ++ b) = true := by
  rw [List.isPrefixOf_iff_prefix]
  exact ⟨b, rfl⟩

lemma mkdirTargets_phaseOps_eq (base : DirPath) (p : Phase) :
    mkdirTargets (phaseOps base p) =
      (base ++ [phaseDirName p.number])
        :: (List.enumFrom 1 p.tasks).map
            (fun it => (base ++ [phaseDirName p.number]) ++ [taskDirName it.1]) := by
  rw [mkdirTargets_phaseOps]
  congr 1
  induction (List.enumFrom 1 p.tasks) with
  | nil => rfl
  | cons it l ih =>
    rw [List.flatMap_cons, List.map_cons, mkdirTargets_taskOps, ih]
    rfl

lemma mkdirTargets_createOps_eq (ps : List Phase) (base : DirPath) :
    mkdirTargets (createOps ps base)
      = base :: ps.flatMap (fun p => mkdirTargets (phaseOps base p)) := by
  rw [createOps, mkdirTargets_cons, mkdirTargets_flatMap]
  rfl

lemma mkdir_phase_block_shape (base : DirPath) (p : Phase) :
    ∀ q ∈ mkdirTargets (phaseOps base p),
      ∃ s, q = (base ++ [phaseDirName p.number]) ++ s := by
  intro q hq
  rw [mkdirTargets_phaseOps_eq] at hq
  rcases List.mem_cons.mp hq with rfl | hq
  · exact ⟨[], by simp⟩
  · rw [List.mem_map] at hq
    obtain ⟨it, _, rfl⟩ := hq
    exact ⟨[taskDirName it.1], rfl⟩

lemma mkdir_phase_block_nodup (base : DirPath) (p : Phase) :
    (mkdirTargets (phaseOps base p)).Nodup := by
  rw [mkdirTargets_phaseOps_eq, List.nodup_cons]
  constructor
  · intro hmem
    rw [List.mem_map] at hmem
    obtain ⟨it, _, heq⟩ := hmem
    have hlen := congrArg List.length heq
    simp at hlen
  · have hfac : (List.enumFrom 1 p.tasks).map
        (fun it => (base ++ [phaseDirName p.number]) ++ [taskDirName it.1])
        = ((List.enumFrom 1 p.tasks).map Prod.fst).map
            (fun i => (base ++ [phaseDirName p.number]) ++ [taskDirName i]) := by
      rw [List.map_map]
      rfl
    rw [hfac]
    refine List.Nodup.map ?_ ?_
    · intro i j hij
      have h1 := List.append_cancel_left hij
      have h2 : taskDirName i = taskDirName j := by
        injection h1
      exact taskDirName_inj h2
    · rw [List.enumFrom_map_fst]
      exact List.nodup_range' _ _

lemma phase_block_mem_ne (base : DirPath) (p : Phase) (n : Nat)
    (hne : p.number ≠ n) (s : List String) :
    ((base ++ [phaseDirName n]) ++ s) ∉ mkdirTargets (phaseOps base p) := by
  intro hmem
  obtain ⟨t, ht⟩ := mkdir_phase_block_shape base p _ hmem
  obtain ⟨hx, _⟩ := append_one_inj ht
  exact hne (phaseDirName_inj hx.symm)

lemma nodup_flatMap_phase (base : DirPath) : ∀ ps : List Phase,
    (ps.map Phase.number).Nodup →
    (ps.flatMap (fun p => mkdirTargets (phaseOps base p))).Nodup := by
  intro ps
  induction ps with
  | nil => intro _; simp
  | cons p ps ih =>
    intro hnd
    rw [List.map_cons, List.nodup_cons] at hnd
    rw [List.flatMap_cons, List.nodup_append]
    refine ⟨mkdir_phase_block_nodup base p, ih hnd.2, ?_⟩
    intro q hq hq2
    rw [List.mem_flatMap] at hq2
    obtain ⟨p2, hp2, hqm⟩ := hq2
    obtain ⟨s, rfl⟩ := mkdir_phase_block_shape base p q hq
    have hne : p2.number ≠ p.number := by
      intro hx
      exact hnd.1 (by rw [← hx]; exact List.mem_map_of_mem _ hp2)
    exact phase_block_mem_ne base p2 p.number hne s hqm

lemma mkdirTargets_createOps_nodup (ps : List Phase) (base : DirPath)
    (hnd : (ps.map Phase.number).Nodup) :
    (mkdirTargets (createOps ps base)).Nodup := by
  rw [mkdirTargets_createOps_eq, List.nodup_cons]
  refine ⟨?_, nodup_flatMap_phase base ps hnd⟩
  intro hmem
  rw [List.mem_flatMap] at hmem
  obtain ⟨p, _, hqm⟩ := hmem
  obtain ⟨s, hs⟩ := mkdir_phase_block_shape base p _ hqm
  have hlen := congrArg List.length hs
  simp at hlen

lemma isPhaseDirB_base_false (base : DirPath) : isPhaseDirB base base = false := by
  simp [isPhaseDirB]

lemma isPhaseDirB_phase_true (base : DirPath) (n : Nat) :
    isPhaseDirB base (base ++ [phaseDirName n]) = true := by
  rw [isPhaseDirB]
  have h1 : base.isPrefixOf (base ++ [phaseDirName n]) = true :=
    isPrefixOf_append_self_str base _
  have h2 : (base ++ [phaseDirName n]).drop base.length = [phaseDirName n] :=
    List.drop_left base _
  rw [h1, h2]
  have h3 : ("Phase".data).isPrefixOf (phaseDirName n).data = true := by
    rw [show (phaseDirName n).data = "Phase".data ++ (Nat.repr n).data from rfl]
    exact isPrefixOf_append_self "Phase".data _
  simp [h3]

lemma isPhaseDirB_task_false (base : DirPath) (x y : String) :
    isPhaseDirB base ((base ++ [x]) ++ [y]) = false := by
  have h2 : (((base ++ [x]) ++ [y]).length = base.length + 1) = False := by
    simp
  simp [isPhaseDirB, h2]

lemma countP_isPhaseDirB_block (base : DirPath) (p : Phase) :
    (mkdirTargets (phaseOps base p)).countP (isPhaseDirB base) = 1 := by
  rw [mkdirTargets_phaseOps_eq, List.countP_cons, isPhaseDirB_phase_true]
  have hz : ((List.enumFrom 1 p.tasks).map
      (fun it => (base ++ [phaseDirName p.number]) ++ [taskDirName it.1])).countP
        (isPhaseDirB base) = 0 := by
    rw [List.countP_eq_zero]
    intro a ha
    rw [List.mem_map] at ha
    obtain ⟨it, _, rfl⟩ := ha
    exact Bool.eq_false_iff.mp
      (isPhaseDirB_task_false base (phaseDirName p.number) (taskDirName it.1))
  rw [hz]
  simp

lemma countP_isPhaseDirB_flatMap (base : DirPath) : ∀ ps : List Phase,
    (ps.flatMap (fun p => mkdirTargets (phaseOps base p))).countP (isPhaseDirB base)
      = ps.length := by
  intro ps
  induction ps with
  | nil => rfl
  | cons p ps ih =>
    rw [List.flatMap_cons, List.countP_append, countP_isPhaseDirB_block, ih,
        List.length_cons]
    omega

lemma isTaskDirB_base_false (base : DirPath) (n : Nat) :
    isTaskDirB base n base = false := by
  have h2 : (base.length = base.length + 2) = False := by simp
  simp [isTaskDirB, h2]

lemma isTaskDirB_phase_false (base : DirPath) (n : Nat) (x : String) :
    isTaskDirB base n (base ++ [x]) = false := by
  have h2 : ((base ++ [x]).length = base.length + 2) = False := by simp
  simp [isTaskDirB, h2]

lemma isTaskDirB_task_true (base : DirPath) (n : Nat) (y : String) :
    isTaskDirB base n ((base ++ [phaseDirName n]) ++ [y]) = true := by
  rw [isTaskDirB]
  have h1 : (base ++ [phaseDirName n]).isPrefixOf ((base ++ [phaseDirName n]) ++ [y])
      = true := isPrefixOf_append_self_str _ _
  rw [h1]
  simp

lemma isTaskDirB_other_false (base : DirPath) (n m : Nat) (hne : m ≠ n)
    (s : List String) :
    isTaskDirB base n ((base ++ [phaseDirName m]) ++ s) = false := by
  rw [isTaskDirB]
  have h1 : (base ++ [phaseDirName n]).isPrefixOf ((base ++ [phaseDirName m]) ++ s)
      = false := by
    rw [Bool.eq_false_iff]
    intro hx
    rw [List.isPrefixOf_iff_prefix] at hx
    obtain ⟨r, hr⟩ := hx
    obtain ⟨he, _⟩ := append_one_inj hr
    exact hne (phaseDirName_inj he).symm
  rw [h1]
  rfl

lemma countP_isTaskDirB_block_eq (base : DirPath) (p : Phase) :
    (mkdirTargets (phaseOps base p)).countP (isTaskDirB base p.number)
      = p.tasks.length := by
  rw [mkdirTargets_phaseOps_eq, List.countP_cons, isTaskDirB_phase_false]
  have hmap : ((List.enumFrom 1 p.tasks).map
      (fun it => (base ++ [phaseDirName p.number]) ++ [taskDirName it.1])).countP
        (isTaskDirB base p.number)
      = ((List.enumFrom 1 p.tasks).map
          (fun it => (base ++ [phaseDirName p.number]) ++ [taskDirName it.1])).length := by
    rw [List.countP_eq_length]
    intro a ha
    rw [List.mem_map] at ha
    obtain ⟨it, _, rfl⟩ := ha
    exact isTaskDirB_task_true base p.number (taskDirName it.1)
  rw [hmap, List.length_map, List.enumFrom_length]
  simp

lemma countP_isTaskDirB_block_ne (base : DirPath) (p : Phase) (n : Nat)
    (hne : p.number ≠ n) :
    (mkdirTargets (phaseOps base p)).countP (isTaskDirB base n) = 0 := by
  rw [List.countP_eq_zero]
  intro q hq
  obtain ⟨s, rfl⟩ := mkdir_phase_block_shape base p q hq
  rw [isTaskDirB_other_false base n p.number hne s]
  simp

lemma countP_isTaskDirB_flatMap (base : DirPath) : ∀ (ps : List Phase) (n c : Nat),
    (ps.map Phase.number).Nodup → (n, c) ∈ phaseCountsOf ps →
    (ps.flatMap (fun p => mkdirTargets (phaseOps base p))).countP (isTaskDirB base n)
      = c := by
  intro ps
  induction ps with
  | nil =>
    intro n c _ h
    simp [phaseCountsOf] at h
  | cons p ps ih =>
    intro n c hnd hmem
    rw [List.map_cons, List.nodup_cons] at hnd
    rw [List.flatMap_cons, List.countP_append]
    rw [phaseCountsOf, List.map_cons, List.mem_cons] at hmem
    rcases hmem with heq | hmem
    · injection heq with h1 h2
      subst h1
      subst h2
      rw [countP_isTaskDirB_block_eq]
      have hz : (ps.flatMap (fun q => mkdirTargets (phaseOps base q))).countP
          (isTaskDirB base p.number) = 0 := by
        rw [List.countP_eq_zero]
        intro q hq
        rw [List.mem_flatMap] at hq
        obtain ⟨p2, hp2, hqm⟩ := hq
        have hne : p2.number ≠ p.number := by
          intro hx
          exact hnd.1 (by rw [← hx]; exact List.mem_map_of_mem _ hp2)
        obtain ⟨s, rfl⟩ := mkdir_phase_block_shape base p2 q hqm
        rw [isTaskDirB_other_false base p.number p2.number hne s]
        simp
      rw [hz]
      omega
    · have hne : p.number ≠ n := by
        intro hx
        subst hx
        have : p.number ∈ (phaseCountsOf ps).map Prod.fst :=
          List.mem_map_of_mem _ hmem
        rw [show (phaseCountsOf ps).map Prod.fst = ps.map Phase.number by
          simp [phaseCountsOf]] at this
        exact hnd.1 this
      rw [countP_isTaskDirB_block_ne base p n hne, ih n c hnd.2 hmem]
      omega

/-- C2 counterexample: the claim fails for well-formed documents in two
ways.  (1) `"## Phase 1: P\n**Goal**: g\n## Phase 2: Q"` is well-formed
(no Task heading at all), yet the run raises `KeyError: 'number'` before
creating anything, so the promised directories are never created.
(2) `"## Phase 1: A\n## Phase 1: B"` is well-formed and parses, but the
two `## Phase` headings share the number 1 and yield a single `Phase1`
directory, not one per heading. -/
theorem phase_task_dir_counts_counterexample :
    (wellFormedB (docLines "## Phase 1: P\n**Goal**: g\n## Phase 2: Q") = true
      ∧ ∀ fs', runGenerator "## Phase 1: P\n**Goal**: g\n## Phase 2: Q"
          actionPlanBase emptyFS ≠ .ok fs')
    ∧ (wellFormedB (docLines "## Phase 1: A\n## Phase 1: B") = true
      ∧ parse_action_plan "## Phase 1: A\n## Phase 1: B"
          = .ok [⟨1, "A", "", []⟩, ⟨1, "B", "", []⟩]
      ∧ countPhaseDirs (create_phase_structure [⟨1, "A", "", []⟩, ⟨1, "B", "", []⟩]
            actionPlanBase emptyFS) actionPlanBase = 1
      ∧ (docLines "## Phase 1: A\n## Phase 1: B").countP isPhaseLineB = 2) := by
  refine ⟨⟨by decide, fun fs' h => ?_⟩, by decide, rfl, rfl, by decide⟩
  rw [show runGenerator "## Phase 1: P\n**Goal**: g\n## Phase 2: Q"
      actionPlanBase emptyFS = .error "KeyError: 'number'" from rfl] at h
  exact Except.noConfusion h

/-- C2 (amended): for every document that is well-formed (no Task heading
before the first Phase heading), in which field-marker lines occur only
while a task heading is pending (so the parser cannot raise), and whose
recognized Phase headings carry pairwise distinct numbers, running the
parser and then the materializer from an empty filesystem creates exactly
one `Phase<N>` directory per `## Phase <integer>: <title>` line, and the
number of `Task<i>` subdirectories under the phase directory for number N
equals the number of `### Task` heading lines between that Phase heading
and the next Phase heading (or end of document). -/
theorem phase_task_dir_counts (text : String) (base : DirPath)
    (hwf : wellFormedB (docLines text) = true)
    (hsafe : markerSafeB false (docLines text) = true)
    (hnd : ((specPhaseCounts (docLines text)).map Prod.fst).Nodup) :
    ∃ ps, parse_action_plan text = .ok ps
      ∧ phaseCountsOf ps = specPhaseCounts (docLines text)
      ∧ countPhaseDirs (create_phase_structure ps base emptyFS) base
          = (docLines text).countP isPhaseLineB
      ∧ ∀ nc ∈ specPhaseCounts (docLines text),
          taskDirCount (create_phase_structure ps base emptyFS) base nc.1 = nc.2 := by
  obtain ⟨st2, hloop, hg2, hnone2, _⟩ := parseLoop_counts (docLines text) initSt
    ⟨fun h => by simp [initSt, TaskAcc.empty, TaskAcc.nonempty] at h,
     fun h => absurd rfl h⟩ hsafe (fun _ => ⟨rfl, hwf⟩)
  have hcounts := hnone2 rfl
  obtain ⟨ps, hfin, hpc⟩ := finishParse_counts st2 hg2
  have hparse : parse_action_plan text = .ok ps := by
    rw [parse_action_plan_eq_of_loop
      (show parseLoop initSt (splitLines text.data) = .ok st2 from hloop)]
    exact hfin
  have hps : phaseCountsOf ps = specPhaseCounts (docLines text) := by
    rw [hpc, hcounts]
    show phaseCountsOf [] ++ _ = _
    simp [phaseCountsOf]
  have hndn : (ps.map Phase.number).Nodup := by
    have he : ps.map Phase.number = (phaseCountsOf ps).map Prod.fst := by
      simp [phaseCountsOf]
    rw [he, hps]
    exact hnd
  have hdirs : (create_phase_structure ps base emptyFS).dirs
      = mkdirTargets (createOps ps base) := by
    rw [create_phase_structure,
        dirs_applyOps_nodup (createOps ps base) emptyFS
          (mkdirTargets_createOps_nodup ps base hndn)
          (fun q _ => by simp [emptyFS])]
    simp [emptyFS]
  refine ⟨ps, hparse, hps, ?_, ?_⟩
  · rw [countPhaseDirs, hdirs, mkdirTargets_createOps_eq, List.countP_cons,
        isPhaseDirB_base_false, countP_isPhaseDirB_flatMap]
    have hlen : (docLines text).countP isPhaseLineB = ps.length := by
      rw [← specPhaseCounts_length, ← hps, phaseCountsOf, List.length_map]
    rw [hlen]
    simp
  · intro nc hmem
    obtain ⟨n, c⟩ := nc
    rw [taskDirCount, hdirs, mkdirTargets_createOps_eq, List.countP_cons,
        isTaskDirB_base_false,
        countP_isTaskDirB_flatMap base ps n c hndn (by rw [hps]; exact hmem)]
    simp

theorem phase_task_dir_counts_witness :
    ∃ ps, parse_action_plan "## Phase 1: P\n### Task 1.1: T" = .ok ps
      ∧ phaseCountsOf ps = specPhaseCounts (docLines "## Phase 1: P\n### Task 1.1: T")
      ∧ countPhaseDirs (create_phase_structure ps actionPlanBase emptyFS) actionPlanBase
          = (docLines "## Phase 1: P\n### Task 1.1: T").countP isPhaseLineB
      ∧ ∀ nc ∈ specPhaseCounts (docLines "## Phase 1: P\n### Task 1.1: T"),
          taskDirCount (create_phase_structure ps actionPlanBase emptyFS)
            actionPlanBase nc.1 = nc.2 :=
  phase_task_dir_counts "## Phase 1: P\n### Task 1.1: T" actionPlanBase
    (by decide) (by decide) (by decide)

end EasyMCP
